import Mathlib

/-!
Verification of the Tranche control plane core against its specification.

The Go sources are shallowly embedded: timestamps become integers (seconds),
`float64` values become exact rationals, `sql.NullTime` becomes `Option`,
database tables become lists of rows, and each engine's run function becomes a
pure Lean function over that state (fallible steps return `Except`).
-/

namespace Tranche

/-- Timestamps, in seconds (Go `time.Time` compared with `Before`/`After`/`Sub`). -/
abbrev Time := Int

/-! ## Storm engine (internal/storm/engine.go) -/

/-- Row of `storm_events` (`db.StormEvent`): `ended_at` is nullable. -/
structure StormEvent where
  id : Int
  serviceID : Int
  kind : String
  startedAt : Time
  endedAt : Option Time
  deriving Repr, DecidableEq

/-- Row of `storm_policies` (`db.StormPolicy`), the fields `evaluatePolicy` reads. -/
structure StormPolicy where
  kind : String
  thresholdAvail : ℚ
  windowSeconds : Int
  cooldownSeconds : Int
  deriving Repr, DecidableEq

/-- The durable storm-event table plus the id sequence. -/
structure StormState where
  events : List StormEvent
  nextID : Int
  deriving Repr, DecidableEq

/-- An event is "open" ("active") when its `ended_at` is NULL. -/
def StormEvent.isOpen (e : StormEvent) : Bool := e.endedAt = none

/-- Whether the row matches (service_id, kind). -/
def StormEvent.matches (e : StormEvent) (sid : Int) (kind : String) : Bool :=
  e.serviceID = sid ∧ e.kind = kind

/-- Pick the row with the latest `started_at` (SQL `ORDER BY started_at DESC LIMIT 1`). -/
def latestBy : List StormEvent → Option StormEvent
  | [] => none
  | e :: es =>
    match latestBy es with
    | none => some e
    | some b => if b.startedAt > e.startedAt then some b else some e

/-- `GetActiveStormForPolicy`: latest open event for (service_id, kind), if any. -/
def getActiveStormForPolicy (st : StormState) (sid : Int) (kind : String) : Option StormEvent :=
  latestBy (st.events.filter (fun e => e.matches sid kind && e.isOpen))

/-- `GetLastStormEvent`: latest event for (service_id, kind) regardless of `ended_at`. -/
def getLastStormEvent (st : StormState) (sid : Int) (kind : String) : Option StormEvent :=
  latestBy (st.events.filter (fun e => e.matches sid kind))

/-- `InsertStormEvent`: append a fresh open event with `started_at = NOW()`. -/
def insertStormEvent (st : StormState) (sid : Int) (kind : String) (now : Time) : StormState :=
  { events := st.events ++ [{ id := st.nextID, serviceID := sid, kind := kind,
                              startedAt := now, endedAt := none }],
    nextID := st.nextID + 1 }

/-- `MarkStormEventResolved`: `UPDATE storm_events SET ended_at = $2 WHERE id = $1`. -/
def markStormEventResolved (st : StormState) (eid : Int) (endedAt : Time) : StormState :=
  { st with events := st.events.map (fun e => if e.id = eid then { e with endedAt := some endedAt } else e) }

/-- The cooldown test of `evaluatePolicy`: `now − ended_at < cooldown` when the last
event is closed, else `now − started_at < cooldown`. -/
def cooldownHolds (lastStorm : StormEvent) (cooldown : Int) (now : Time) : Bool :=
  match lastStorm.endedAt with
  | some endedAt => now - endedAt < cooldown
  | none => now - lastStorm.startedAt < cooldown

/-- `Engine.evaluatePolicy` given the availability figure `avail` and the tick time
`now`; returns the updated storm-event table. -/
def evaluatePolicy (st : StormState) (serviceID : Int) (p : StormPolicy)
    (avail : ℚ) (now : Time) : StormState :=
  if avail < p.thresholdAvail then
    match getActiveStormForPolicy st serviceID p.kind with
    | some _ => st
    | none =>
      match getLastStormEvent st serviceID p.kind with
      | some lastStorm =>
        if p.cooldownSeconds > 0 && cooldownHolds lastStorm p.cooldownSeconds now then
          st
        else
          insertStormEvent st serviceID p.kind now
      | none => insertStormEvent st serviceID p.kind now
  else
    match getActiveStormForPolicy st serviceID p.kind with
    | some active => markStormEventResolved st active.id now
    | none => st

/-- Number of open events for a (service_id, kind) pair. -/
def openCount (st : StormState) (sid : Int) (kind : String) : Nat :=
  (st.events.filter (fun e => e.matches sid kind && e.isOpen)).length

/-! ## In-memory availability (monitor `InMemoryMetrics`) -/

/-- One recorded probe sample (`probeSample`): timestamp and outcome. -/
structure ProbeSample where
  t : Time
  ok : Bool
  deriving Repr, DecidableEq

/-- The sample-expiry scan of `Availability`: find the first index whose sample
satisfies `t.After(cutoff)` and keep the suffix from there (`samples[idx:]`). -/
def trimSamples (cutoff : Time) (samples : List ProbeSample) : List ProbeSample :=
  samples.dropWhile (fun s => s.t ≤ cutoff)

/-- One service's per-target sample map (`map[string][]probeSample`), as an
association list. -/
abbrev TargetSamples := List (String × List ProbeSample)

/-- Pooled ok count of a target map. -/
def okCountOf (ts : TargetSamples) : Nat :=
  (ts.map (fun tk => (tk.2.filter (fun s => s.ok)).length)).sum

/-- Pooled total sample count of a target map. -/
def totalCountOf (ts : TargetSamples) : Nat :=
  (ts.map (fun tk => tk.2.length)).sum

/-- The per-target loop of `Availability`: trim each target's tail and delete the
targets left empty. -/
def runSurvivors (cutoff : Time) (targets : TargetSamples) : TargetSamples :=
  targets.filterMap (fun tk =>
    if (trimSamples cutoff tk.2).isEmpty then none
    else some (tk.1, trimSamples cutoff tk.2))

/-- `InMemoryMetrics.Availability` (the configurable variant): returns the
service's updated target map and the availability figure. The Go method trims
each target's tail, deletes targets left empty, and pools ok/total across the
survivors; with no survivors it returns `emptyAvailability`. -/
def availabilityRun (emptyAvailability : ℚ) (targets : TargetSamples) (cutoff : Time) :
    TargetSamples × ℚ :=
  if targets.isEmpty then (targets, emptyAvailability)
  else
    if (runSurvivors cutoff targets).isEmpty then ([], emptyAvailability)
    else if totalCountOf (runSurvivors cutoff targets) = 0 then
      (runSurvivors cutoff targets, emptyAvailability)
    else
      (runSurvivors cutoff targets,
        (okCountOf (runSurvivors cutoff targets) : ℚ)
          / (totalCountOf (runSurvivors cutoff targets) : ℚ))

/-- `NewInMemoryMetrics` (the production constructor) sets `emptyAvailability` to 0. -/
def newInMemoryMetricsDefault : ℚ := 0

/-- The legacy `InMemoryMetrics.Availability` (single per-service list, hard-wired
1.0 default): returns the trimmed list and the figure. -/
def availabilityLegacy (samples : List ProbeSample) (cutoff : Time) :
    List ProbeSample × ℚ :=
  if samples.isEmpty then (samples, 1)
  else
    let s := trimSamples cutoff samples
    if s.isEmpty then ([], 1)
    else
      let total := s.length
      let okCount := (s.filter (fun x => x.ok)).length
      (s, (okCount : ℚ) / (total : ℚ))

/-- Specification-side survivors, following the spec's words: the targets having
at least one sample newer than the cutoff, each restricted to those samples. -/
def specSurvivors (cutoff : Time) (targets : TargetSamples) : TargetSamples :=
  targets.filterMap (fun tk =>
    if (tk.2.filter (fun s => cutoff < s.t)).isEmpty then none
    else some (tk.1, tk.2.filter (fun s => cutoff < s.t)))

/-! ## Route53 DNS provider (internal/dns, Route53Provider) -/

/-- Go strings modelled character-wise (the claims never depend on UTF-8 byte
positions). -/
abbrev Str := List Char

/-- Go `strings.HasSuffix`. -/
def strEndsWith (s post : Str) : Bool := post.isSuffixOf s

/-- Go `strings.HasPrefix`. -/
def strStartsWith (s pre : Str) : Bool := pre.isPrefixOf s

/-- Go `strings.TrimSuffix`: drop one trailing occurrence of `post` when present. -/
def trimSuffixStr (s post : Str) : Str :=
  if strEndsWith s post then s.take (s.length - post.length) else s

/-- Go `strings.TrimPrefix`: drop one leading occurrence of `pre` when present. -/
def trimPfxStr (s pre : Str) : Str :=
  if strStartsWith s pre then s.drop pre.length else s

/-- ASCII lowering of one character; the identifiers compared here ("primary",
"backup") are ASCII, where Go `strings.ToLower` acts exactly like this. -/
def asciiLower (c : Char) : Char :=
  if 'A' ≤ c ∧ c ≤ 'Z' then Char.ofNat (c.toNat + 32) else c

/-- Go `strings.ToLower` on ASCII data. -/
def strToLower (s : Str) : Str := s.map asciiLower

/-- Go `strings.TrimSpace`: drop whitespace from both ends. -/
def strTrim (s : Str) : Str :=
  ((s.dropWhile Char.isWhitespace).reverse.dropWhile Char.isWhitespace).reverse

/-- A weighted resource record set, restricted to the fields the provider reads;
`payload` stands for all the other copied-through fields. -/
structure RecordSet where
  name : Str
  setIdentifier : Option Str
  weight : Option Int
  payload : Nat
  deriving Repr, DecidableEq

/-- A hosted zone as returned by `ListHostedZonesByName`. -/
structure HostedZone where
  name : Str
  zid : Str
  deriving Repr, DecidableEq

/-- The Route53 API the provider talks to: the hosted zones listed for the
domain, and the successive `ListResourceRecordSets` pages (the last page has
`IsTruncated = false`). -/
structure R53Client where
  zones : List HostedZone
  pages : List (List RecordSet)
  deriving Repr, DecidableEq

/-- An UPSERT change batch submitted to `ChangeResourceRecordSets`. -/
structure ChangeBatch where
  zoneID : Str
  primaryUpdate : RecordSet
  backupUpdate : RecordSet
  deriving Repr, DecidableEq

/-- `Route53Provider.lookupHostedZone`: longest zone name (trailing dot trimmed,
empty names skipped) that is a suffix of the domain; its id with the
`/hostedzone/` marker stripped, or an error when none matches. -/
def lookupHostedZone (zones : List HostedZone) (domain : Str) : Except String Str :=
  let best := zones.foldl (fun (acc : Str × Str) z =>
    let zoneName := trimSuffixStr z.name ".".toList
    if zoneName = [] then acc
    else if !(strEndsWith domain zoneName) then acc
    else if zoneName.length > acc.1.length then (zoneName, trimPfxStr z.zid "/hostedzone/".toList)
    else acc) ([], [])
  if best.2 = [] then .error ("no hosted zone for " ++ String.mk domain) else .ok best.2

/-- One record of the `fetchWeightedRecords` scan: keep records whose trimmed
name equals the domain, with non-nil SetIdentifier and Weight, assigning on the
lowercased identifier. -/
def scanStep (domain : Str) (acc : Option RecordSet × Option RecordSet)
    (rr : RecordSet) : Option RecordSet × Option RecordSet :=
  if trimSuffixStr rr.name ".".toList ≠ domain then acc
  else match rr.setIdentifier, rr.weight with
    | some sid, some _ =>
      if strToLower sid = "primary".toList then (some rr, acc.2)
      else if strToLower sid = "backup".toList then (acc.1, some rr)
      else acc
    | _, _ => acc

/-- The per-page scan of `fetchWeightedRecords`. -/
def scanRecords (domain : Str) (acc : Option RecordSet × Option RecordSet)
    (page : List RecordSet) : Option RecordSet × Option RecordSet :=
  page.foldl (scanStep domain) acc

/-- `Route53Provider.fetchWeightedRecords`: scan pages until both records are
found or pagination is exhausted; error when either is missing. -/
def fetchWeightedRecords (domain : Str) :
    List (List RecordSet) → Option RecordSet × Option RecordSet →
      Except String (RecordSet × RecordSet)
  | [], acc =>
    match acc with
    | (some p, some b) => .ok (p, b)
    | _ => .error ("weighted records for " ++ String.mk domain ++ " not found")
  | page :: rest, acc =>
    match scanRecords domain acc page with
    | (some p, some b) => .ok (p, b)
    | acc' =>
      if rest.isEmpty then
        match acc' with
        | (some p, some b) => .ok (p, b)
        | _ => .error ("weighted records for " ++ String.mk domain ++ " not found")
      else fetchWeightedRecords domain rest acc'

/-- `Route53Provider.setWeightsOnce`: resolve the zone, fetch both weighted
records, and submit one UPSERT change batch that copies the records and
overwrites only `Weight`. Returns the outcome and the submitted batches. -/
def setWeightsOnce (cl : R53Client) (domain : Str) (pw bw : Int) :
    Except String Unit × List ChangeBatch :=
  match lookupHostedZone cl.zones domain with
  | .error e => (.error e, [])
  | .ok zoneID =>
    match fetchWeightedRecords domain cl.pages (none, none) with
    | .error e => (.error e, [])
    | .ok (primary, backup) =>
      (.ok (), [{ zoneID := zoneID,
                  primaryUpdate := { primary with weight := some pw },
                  backupUpdate := { backup with weight := some bw } }])

/-- `newRoute53Provider`: `maxAttempts` falls back to 3 when configured ≤ 0. -/
def normMaxAttempts (cfgMaxAttempts : Int) : Nat :=
  if cfgMaxAttempts ≤ 0 then 3 else cfgMaxAttempts.toNat

/-- The backoff before retrying after a failed attempt:
`time.Duration(1<<uint(attempt-1)) * 200 * time.Millisecond`, in ms. -/
def backoffMs (attempt : Nat) : Nat := 2 ^ (attempt - 1) * 200

/-- Error wrapping applied by `SetWeights` after exhausting all attempts. -/
def wrapSetWeightsErr (normalizedDomain : Str) (e : String) : String :=
  "route53 SetWeights(" ++ String.mk normalizedDomain ++ ") failed: " ++ e

/-- Aggregate outcome of a `SetWeights` call: result, attempts made, backoff
sleeps performed, and change batches submitted. -/
structure SetWeightsOutcome where
  result : Except String Unit
  attempts : Nat
  sleeps : List Nat
  calls : List ChangeBatch
  deriving Repr

/-- The retry loop of `SetWeights`: `once n` is the outcome of the 1-based
attempt `n`. Runs from attempt `attempt` with `remaining` attempts left,
sleeping between consecutive failed attempts but not after the last. The error
carried out is the last failure, unwrapped. -/
def retryGo (once : Nat → Except String Unit × List ChangeBatch) :
    Nat → Nat → SetWeightsOutcome
  | _, 0 => { result := .error "", attempts := 0, sleeps := [], calls := [] }
  | attempt, r + 1 =>
    match once attempt with
    | (.ok _, calls) => { result := .ok (), attempts := 1, sleeps := [], calls := calls }
    | (.error e, calls) =>
      if r = 0 then { result := .error e, attempts := 1, sleeps := [], calls := calls }
      else
        let next := retryGo once (attempt + 1) r
        { result := next.result, attempts := next.attempts + 1,
          sleeps := backoffMs attempt :: next.sleeps, calls := calls ++ next.calls }

/-- `Route53Provider.SetWeights` around an abstract attempt body: reject blank
domains, then retry up to `maxAttempts` times, wrapping the last failure. -/
def setWeightsRun (once : Nat → Except String Unit × List ChangeBatch)
    (domain : Str) (maxAttempts : Nat) : SetWeightsOutcome :=
  if strTrim domain = [] then
    { result := .error "domain is required", attempts := 0, sleeps := [], calls := [] }
  else
    let o := retryGo once 1 maxAttempts
    { o with result := match o.result with
        | .ok _ => .ok ()
        | .error e => .error (wrapSetWeightsErr (trimSuffixStr domain ".".toList) e) }

/-- The full provider call: `newRoute53Provider` normalization composed with
`SetWeights`, whose attempt body is `setWeightsOnce` on the normalized domain. -/
def route53SetWeights (cl : R53Client) (cfgMaxAttempts : Int) (domain : Str)
    (pw bw : Int) : SetWeightsOutcome :=
  setWeightsRun (fun _ => setWeightsOnce cl (trimSuffixStr domain ".".toList) pw bw)
    domain (normMaxAttempts cfgMaxAttempts)

/-! ## Probe scheduler reconcile (internal/monitor/monitor.go) -/

/-- Go `%d` rendering of an integer in decimal. -/
def intToStr (i : Int) : Str :=
  if i < 0 then '-' :: Nat.toDigits 10 (-i).toNat else Nat.toDigits 10 i.toNat

/-- `probeTarget.key()`: `{service_id}:{domain_id}:{metrics_key}`. -/
def probeKey (serviceID domainID : Int) (metricsKey : Str) : Str :=
  intToStr serviceID ++ [':'] ++ intToStr domainID ++ [':'] ++ metricsKey

/-- The `preserveExistingLoops` key marker: `{service_id}:`. -/
def servicePrefixKey (serviceID : Int) : Str := intToStr serviceID ++ [':']

/-- `ensureProbeLoop` over a batch of target keys: start a loop only for keys not
yet running. -/
def ensureLoops (ls : List Str) (keys : List Str) : List Str :=
  keys.foldl (fun ls k => if k ∈ ls then ls else ls ++ [k]) ls

/-- One service of the reconcile loop in `Scheduler.Run`: on a failed domain
fetch, keep every running key with the service's prefix in the desired set
(`preserveExistingLoops`); otherwise mark the fetched target keys desired and
start missing loops. The state is (desired `active` set, running loop keys). -/
def reconcileStep (acc : List Str × List Str) (svc : Int × Option (List Str)) :
    List Str × List Str :=
  match svc.2 with
  | none =>
    (acc.1 ++ acc.2.filter (fun k => strStartsWith k (servicePrefixKey svc.1)), acc.2)
  | some keys => (acc.1 ++ keys, ensureLoops acc.2 keys)

/-- One reconcile iteration of `Scheduler.Run`: process every service, then
`stopMissingLoops` cancels running loops absent from the desired set. -/
def reconcileOnce (loops : List Str) (services : List (Int × Option (List Str))) :
    List Str :=
  let res := services.foldl reconcileStep ([], loops)
  res.2.filter (fun k => decide (k ∈ res.1))

/-! ## Billing engine (billing Engine.RunOnce and helpers) -/

/-- Stable insertion into a sorted list, for modelling SQL `ORDER BY` and Go
`sort.Slice`. -/
def insertSorted (le : α → α → Bool) (x : α) : List α → List α
  | [] => [x]
  | y :: ys => if le x y then x :: y :: ys else y :: insertSorted le x ys

/-- Stable insertion sort. -/
def sortBy (le : α → α → Bool) (l : List α) : List α := l.foldr (insertSorted le) []

/-- Go `math.Round`: round half away from zero. -/
def roundQ (q : ℚ) : Int := if q < 0 then -(Int.floor (-q + 1/2)) else Int.floor (q + 1/2)

/-- Row of `usage_snapshots`. -/
structure UsageSnapshot where
  id : Int
  serviceID : Int
  windowStart : Time
  windowEnd : Time
  primaryBytes : Int
  backupBytes : Int
  invoiceID : Option Int
  deriving Repr, DecidableEq

/-- Row of `services`, restricted to what the billing join reads. -/
structure ServiceRow where
  id : Int
  customerID : Int
  deriving Repr, DecidableEq

/-- Row of `invoices`. -/
structure Invoice where
  id : Int
  customerID : Int
  periodStart : Time
  periodEnd : Time
  subtotalCents : Int
  discountCents : Int
  totalCents : Int
  deriving Repr, DecidableEq

/-- Row of `invoice_line_items`. -/
structure InvoiceLineItem where
  invoiceID : Int
  serviceID : Int
  windowStart : Time
  windowEnd : Time
  primaryBytes : Int
  backupBytes : Int
  coverageFactor : ℚ
  amountCents : Int
  discountCents : Int
  deriving Repr, DecidableEq

/-- The billing-relevant database state; `policies` holds the
(service_id, max_coverage_factor) columns of `storm_policies`. -/
structure BillingDB where
  services : List ServiceRow
  snapshots : List UsageSnapshot
  events : List StormEvent
  policies : List (Int × ℚ)
  invoices : List Invoice
  lineItems : List InvoiceLineItem
  nextInvoiceID : Int
  deriving Repr, DecidableEq

/-- Row shape returned by `LockUnbilledUsageSnapshots` (snapshot joined with the
owning service's customer). -/
structure SnapRow where
  id : Int
  serviceID : Int
  customerID : Int
  windowStart : Time
  windowEnd : Time
  primaryBytes : Int
  backupBytes : Int
  deriving Repr, DecidableEq

/-- `LockUnbilledUsageSnapshots`: unbilled snapshots whose `window_end` lies in
(window_start, window_end], joined with `services`, ordered by `window_start`. -/
def lockUnbilledUsageSnapshots (db : BillingDB) (windowStart windowEnd : Time) :
    List SnapRow :=
  sortBy (fun a b => a.windowStart ≤ b.windowStart)
    (db.snapshots.filterMap (fun us =>
      match db.services.find? (fun s => s.id == us.serviceID) with
      | some s =>
        if us.invoiceID = none ∧ us.windowEnd ≤ windowEnd ∧ windowStart < us.windowEnd then
          some { id := us.id, serviceID := us.serviceID, customerID := s.customerID,
                 windowStart := us.windowStart, windowEnd := us.windowEnd,
                 primaryBytes := us.primaryBytes, backupBytes := us.backupBytes }
        else none
      | none => none))

/-- `GetStormEventsForWindow`: events of the service overlapping the window,
ordered by `started_at`. -/
def getStormEventsForWindow (db : BillingDB) (serviceID : Int)
    (windowStart windowEnd : Time) : List StormEvent :=
  sortBy (fun a b => a.startedAt ≤ b.startedAt)
    (db.events.filter (fun ev =>
      decide (ev.serviceID = serviceID) && decide (ev.startedAt < windowEnd) &&
        (match ev.endedAt with
         | none => true
         | some t => decide (windowStart < t))))

/-- `GetMaxCoverageFactorForService`: `COALESCE(MAX(max_coverage_factor), 1.0)`
over the service's policies. -/
def getMaxCoverageFactorForService (db : BillingDB) (serviceID : Int) : ℚ :=
  match (db.policies.filter (fun p => p.1 = serviceID)).map (fun p => p.2) with
  | [] => 1
  | v :: vs => vs.foldl max v

/-- `Engine.chargeForBytes`: `round((bytes / 2^30) × rate_cents_per_gb)`,
0 for non-positive byte counts. -/
def chargeForBytes (rateCentsPerGB : Int) (bytes : Int) : Int :=
  if bytes ≤ 0 then 0
  else roundQ ((bytes : ℚ) / (1024 * 1024 * 1024) * (rateCentsPerGB : ℚ))

/-- The clipped start of a storm interval (`start = max(started_at, window_start)`). -/
def clipStart (windowStart : Time) (storm : StormEvent) : Time :=
  if storm.startedAt < windowStart then windowStart else storm.startedAt

/-- The clipped end of a storm interval: `ended_at` when set and before the
window end, else the window end. -/
def clipEnd (windowEnd : Time) (storm : StormEvent) : Time :=
  match storm.endedAt with
  | some t => if t < windowEnd then t else windowEnd
  | none => windowEnd

/-- The per-storm clipping of `coverageRatio`: clamp to the window and drop
inverted intervals. -/
def clipStorm (windowStart windowEnd : Time) (storm : StormEvent) :
    Option (Time × Time) :=
  if clipEnd windowEnd storm < clipStart windowStart storm then none
  else some (clipStart windowStart storm, clipEnd windowEnd storm)

/-- One step of the interval-union merge of `coverageRatio`; the accumulator is
kept reversed with the most recent interval first. -/
def mergeStep (acc : List (Time × Time)) (iv : Time × Time) : List (Time × Time) :=
  match acc with
  | [] => [iv]
  | last :: rest =>
    if last.2 < iv.1 then iv :: last :: rest
    else if last.2 < iv.2 then (last.1, iv.2) :: rest
    else last :: rest

/-- Total seconds covered by the sorted, union-merged clipped storm intervals. -/
def coveredSeconds (windowStart windowEnd : Time) (storms : List StormEvent) : ℚ :=
  ((((sortBy (fun a b => a.1 ≤ b.1)
        (storms.filterMap (clipStorm windowStart windowEnd))).foldl mergeStep []).map
      (fun iv => ((iv.2 - iv.1 : Int) : ℚ))).sum)

/-- `coverageRatio`: merged covered seconds over window seconds, clipped to the
window and capped at 1. -/
def coverageRatio (windowStart windowEnd : Time) (storms : List StormEvent) : ℚ :=
  if ((windowEnd - windowStart : Int) : ℚ) ≤ 0 then 0
  else if (storms.filterMap (clipStorm windowStart windowEnd)).isEmpty then 0
  else
    (if ((windowEnd - windowStart : Int) : ℚ) < coveredSeconds windowStart windowEnd storms
     then ((windowEnd - windowStart : Int) : ℚ)
     else coveredSeconds windowStart windowEnd storms)
      / ((windowEnd - windowStart : Int) : ℚ)

/-- The per-line arithmetic of `RunOnce` (coverage clamp, charges, discount
clamp, line total). -/
structure LineNumbers where
  coverage : ℚ
  lineSubtotal : Int
  discount : Int
  lineTotal : Int
  deriving Repr, DecidableEq

/-- The coverage of one line: the ratio scaled by the factor and clamped to it. -/
def coverageOf (maxCoverage : ℚ) (snap : SnapRow) (storms : List StormEvent) : ℚ :=
  if maxCoverage < coverageRatio snap.windowStart snap.windowEnd storms * maxCoverage
  then maxCoverage
  else coverageRatio snap.windowStart snap.windowEnd storms * maxCoverage

/-- The line subtotal: charges for primary and backup bytes. -/
def lineSubtotalOf (rate : Int) (snap : SnapRow) : Int :=
  chargeForBytes rate snap.primaryBytes + chargeForBytes rate snap.backupBytes

/-- The discount: `round(backup_charge × discount_rate × coverage)`, clamped to
the line subtotal. -/
def discountOf (rate : Int) (discountRate : ℚ) (maxCoverage : ℚ)
    (snap : SnapRow) (storms : List StormEvent) : Int :=
  if lineSubtotalOf rate snap <
      roundQ ((chargeForBytes rate snap.backupBytes : ℚ) * discountRate
        * coverageOf maxCoverage snap storms)
  then lineSubtotalOf rate snap
  else roundQ ((chargeForBytes rate snap.backupBytes : ℚ) * discountRate
        * coverageOf maxCoverage snap storms)

/-- Lines 96–107 of the billing `RunOnce` body for one snapshot. -/
def lineNumbers (rate : Int) (discountRate : ℚ) (maxCoverage : ℚ)
    (snap : SnapRow) (storms : List StormEvent) : LineNumbers :=
  { coverage := coverageOf maxCoverage snap storms,
    lineSubtotal := lineSubtotalOf rate snap,
    discount := discountOf rate discountRate maxCoverage snap storms,
    lineTotal := lineSubtotalOf rate snap - discountOf rate discountRate maxCoverage snap storms }

/-- Go `lineItem` (an invoice line before the invoice id exists). -/
structure LineItemCalc where
  serviceID : Int
  windowStart : Time
  windowEnd : Time
  primaryBytes : Int
  backupBytes : Int
  coverageFactor : ℚ
  amountCents : Int
  discountCents : Int
  deriving Repr, DecidableEq

/-- Go `invoiceBuild`: the per-customer invoice accumulator. -/
structure InvoiceBuild where
  customerID : Int
  periodStart : Time
  periodEnd : Time
  subtotal : Int
  discount : Int
  total : Int
  snapshotIDs : List Int
  items : List LineItemCalc
  deriving Repr, DecidableEq

/-- The line item appended for a snapshot. -/
def mkItem (snap : SnapRow) (ln : LineNumbers) : LineItemCalc :=
  { serviceID := snap.serviceID, windowStart := snap.windowStart,
    windowEnd := snap.windowEnd, primaryBytes := snap.primaryBytes,
    backupBytes := snap.backupBytes, coverageFactor := ln.coverage,
    amountCents := ln.lineSubtotal, discountCents := ln.discount }

/-- Fresh builder for a customer (`invoices[snap.CustomerID]` miss). -/
def newBuild (snap : SnapRow) : InvoiceBuild :=
  { customerID := snap.customerID, periodStart := snap.windowStart,
    periodEnd := snap.windowEnd, subtotal := 0, discount := 0, total := 0,
    snapshotIDs := [], items := [] }

/-- Accumulate one snapshot into a builder: extend the period, add the sums,
record the snapshot id and the line item. -/
def updBuild (b : InvoiceBuild) (snap : SnapRow) (ln : LineNumbers) : InvoiceBuild :=
  { b with
    periodStart := if snap.windowStart < b.periodStart then snap.windowStart else b.periodStart,
    periodEnd := if b.periodEnd < snap.windowEnd then snap.windowEnd else b.periodEnd,
    subtotal := b.subtotal + ln.lineSubtotal,
    discount := b.discount + ln.discount,
    total := b.total + ln.lineTotal,
    snapshotIDs := b.snapshotIDs ++ [snap.id],
    items := b.items ++ [mkItem snap ln] }

/-- The `invoices` map of `RunOnce`, as an association list keyed by customer in
first-appearance order. -/
def upsertBuilder (builders : List InvoiceBuild) (snap : SnapRow) (ln : LineNumbers) :
    List InvoiceBuild :=
  match builders with
  | [] => [updBuild (newBuild snap) snap ln]
  | b :: rest =>
    if b.customerID = snap.customerID then updBuild b snap ln :: rest
    else b :: upsertBuilder rest snap ln

/-- One fallible database call: the `inject` oracle decides whether the n-th
call of the run errors; on success the call counter advances. -/
def billOp (inject : Nat → Bool) (c : Nat) : Except String Nat :=
  if inject c then .error "db error" else .ok (c + 1)

/-- The first loop of `RunOnce`: per snapshot, fetch overlapping storms, fetch
the (per-service cached) max coverage factor, compute the line, and accumulate
into the per-customer builders. -/
def processSnapshots (db : BillingDB) (inject : Nat → Bool) (rate : Int)
    (discountRate : ℚ) :
    List SnapRow → Nat × List (Int × ℚ) × List InvoiceBuild →
      Except String (Nat × List (Int × ℚ) × List InvoiceBuild)
  | [], st => .ok st
  | snap :: rest, (c, cache, builders) =>
    match billOp inject c with
    | .error e => .error e
    | .ok c =>
      let storms := getStormEventsForWindow db snap.serviceID snap.windowStart snap.windowEnd
      match
        (match cache.find? (fun p => p.1 == snap.serviceID) with
         | some p => .ok (c, cache, p.2)
         | none =>
           match billOp inject c with
           | .error e => .error e
           | .ok c =>
             let v := getMaxCoverageFactorForService db snap.serviceID
             .ok (c, cache ++ [(snap.serviceID, v)], v) :
          Except String (Nat × List (Int × ℚ) × ℚ)) with
      | .error e => .error e
      | .ok (c, cache, maxCov) =>
        let ln := lineNumbers rate discountRate maxCov snap storms
        processSnapshots db inject rate discountRate rest
          (c, cache, upsertBuilder builders snap ln)

/-- `InsertInvoiceLineItem` over a builder's sorted items. -/
def insertItems (inject : Nat → Bool) (invID : Int) :
    List LineItemCalc → Nat × List InvoiceLineItem →
      Except String (Nat × List InvoiceLineItem)
  | [], st => .ok st
  | it :: rest, (c, acc) =>
    match billOp inject c with
    | .error e => .error e
    | .ok c =>
      insertItems inject invID rest
        (c, acc ++ [{ invoiceID := invID, serviceID := it.serviceID,
                      windowStart := it.windowStart, windowEnd := it.windowEnd,
                      primaryBytes := it.primaryBytes, backupBytes := it.backupBytes,
                      coverageFactor := it.coverageFactor, amountCents := it.amountCents,
                      discountCents := it.discountCents }])

/-- `MarkUsageSnapshotInvoiced` over a builder's snapshot ids:
`UPDATE usage_snapshots SET invoice_id = $1 WHERE id = $2`. -/
def markSnaps (inject : Nat → Bool) (invID : Int) :
    List Int → Nat × List UsageSnapshot →
      Except String (Nat × List UsageSnapshot)
  | [], st => .ok st
  | sid :: rest, (c, snaps) =>
    match billOp inject c with
    | .error e => .error e
    | .ok c =>
      markSnaps inject invID rest
        (c, snaps.map (fun us => if us.id = sid then { us with invoiceID := some invID } else us))

/-- The second loop of `RunOnce`: per builder, insert the invoice, its sorted
line items, and mark each source snapshot with the inserted invoice's id. -/
def emitInvoices (inject : Nat → Bool) :
    List InvoiceBuild → Nat × BillingDB → Except String (Nat × BillingDB)
  | [], st => .ok st
  | inv :: rest, (c, db) =>
    match billOp inject c with
    | .error e => .error e
    | .ok c =>
      let invID := db.nextInvoiceID
      let invoice : Invoice :=
        { id := invID, customerID := inv.customerID, periodStart := inv.periodStart,
          periodEnd := inv.periodEnd, subtotalCents := inv.subtotal,
          discountCents := inv.discount, totalCents := inv.total }
      match insertItems inject invID (sortBy (fun a b => a.windowStart ≤ b.windowStart) inv.items) (c, []) with
      | .error e => .error e
      | .ok (c, items) =>
        match markSnaps inject invID inv.snapshotIDs (c, db.snapshots) with
        | .error e => .error e
        | .ok (c, snaps) =>
          emitInvoices inject rest
            (c, { db with snapshots := snaps,
                          invoices := db.invoices ++ [invoice],
                          lineItems := db.lineItems ++ items,
                          nextInvoiceID := invID + 1 })

/-- `billing.Engine.RunOnce` inside its transaction: lock the unbilled
snapshots of the period, build the per-customer invoices, insert them and flag
the snapshots, then commit; every error aborts the whole run. -/
def runOnce (db : BillingDB) (inject : Nat → Bool) (now period : Time)
    (rate : Int) (discountRate : ℚ) : Except String BillingDB :=
  match billOp inject 0 with
  | .error e => .error e
  | .ok c =>
    match billOp inject c with
    | .error e => .error e
    | .ok c =>
      let snapshots := lockUnbilledUsageSnapshots db (now - period) now
      if snapshots.isEmpty then .ok db
      else
        match processSnapshots db inject rate discountRate snapshots (c, [], []) with
        | .error e => .error e
        | .ok (c, _, builders) =>
          match emitInvoices inject builders (c, db) with
          | .error e => .error e
          | .ok (c, dbOut) =>
            match billOp inject c with
            | .error e => .error e
            | .ok _ => .ok dbOut

/-- The state the database commits to after a run: the new state on COMMIT,
the original state on ROLLBACK. -/
def runOnceCommitted (db : BillingDB) (inject : Nat → Bool) (now period : Time)
    (rate : Int) (discountRate : ℚ) : BillingDB :=
  match runOnce db inject now period rate discountRate with
  | .ok dbOut => dbOut
  | .error _ => db

/-- Every snapshot row carrying the id points at an invoice row with id at or
above `startNext` (i.e. inserted at or after that sequence point). -/
def MarkedFrom (startNext : Int) (db : BillingDB) (sid : Int) : Prop :=
  ∀ us ∈ db.snapshots, us.id = sid →
    ∃ inv ∈ db.invoices, startNext ≤ inv.id ∧ us.invoiceID = some inv.id

/-- A snapshot id is invoiced in `dbOut` relative to the run's starting state
`dbStart`: every snapshot row carrying the id points at an invoice row inserted
during the run (id at or above the starting sequence value). -/
def snapshotInvoiced (dbStart dbOut : BillingDB) (sid : Int) : Prop :=
  MarkedFrom dbStart.nextInvoiceID dbOut sid

/-- Concatenated snapshot ids of the invoice builders. -/
def buildersIDs : List InvoiceBuild → List Int
  | [] => []
  | b :: rest => b.snapshotIDs ++ buildersIDs rest

/-- The S6 billing scenario: one snapshot of 1 GB primary and 1 GB backup, one
storm covering half its window, `max_coverage_factor = 1.5`. -/
def billingScenarioDB : BillingDB :=
  { services := [{ id := 1, customerID := 7 }],
    snapshots := [{ id := 10, serviceID := 1, windowStart := 0, windowEnd := 3600,
                    primaryBytes := 1073741824, backupBytes := 1073741824,
                    invoiceID := none }],
    events := [{ id := 5, serviceID := 1, kind := "failover",
                 startedAt := 0, endedAt := some 1800 }],
    policies := [(1, 3/2)],
    invoices := [], lineItems := [], nextInvoiceID := 1 }

/-! ## Usage ingestor (usageingestor Engine.RunOnce) -/

/-- One hourly usage sample returned by the CDN provider. -/
structure UsageRow where
  host : String
  windowStart : Time
  windowEnd : Time
  bytes : Int
  deriving Repr, DecidableEq

/-- Go `time.Time.Truncate`: round down to a multiple of `window` (identity for
non-positive durations). -/
def timeTruncate (t window : Time) : Time :=
  if window ≤ 0 then t else window * (t / window)

/-- Go map assignment on an association list: replace the key's entry or append. -/
def upsertAssoc (acc : List (String × Int)) (k : String) (v : Int) :
    List (String × Int) :=
  match acc with
  | [] => [(k, v)]
  | (k', v') :: rest =>
    if k' = k then (k, v) :: rest else (k', v') :: upsertAssoc rest k v

/-- Association-list lookup. -/
def lookupAssoc (acc : List (String × Int)) (k : String) : Option Int :=
  (acc.find? (fun p => p.1 == k)).map (fun p => p.2)

/-- `loadDomains`: hostname → service id over the domains of active services
(later rows overwrite earlier ones, like Go map assignment). -/
def hostToService (serviceIDs : List Int) (domains : List (Int × String)) :
    List (String × Int) :=
  domains.foldl (fun acc d => if d.1 ∈ serviceIDs then upsertAssoc acc d.2 d.1 else acc) []

/-- `db.UpsertUsageSnapshotParams`. -/
structure UpsertParams where
  serviceID : Int
  windowStart : Time
  windowEnd : Time
  primaryBytes : Int
  backupBytes : Int
  deriving Repr, DecidableEq

/-- The `aggregates[key]` read-modify-write of the ingestor: bump the key's
primary-byte total by the row's bytes and refresh the window fields. -/
def addUsage (aggs : List ((Int × Time) × UpsertParams)) (key : Int × Time)
    (u : UsageRow) : List ((Int × Time) × UpsertParams) :=
  match aggs with
  | [] => [(key, { serviceID := key.1, windowStart := key.2, windowEnd := u.windowEnd,
                   primaryBytes := u.bytes, backupBytes := 0 })]
  | (k', p) :: rest =>
    if k' = key then
      (key, { p with serviceID := key.1, windowStart := key.2, windowEnd := u.windowEnd,
                     primaryBytes := p.primaryBytes + u.bytes }) :: rest
    else (k', p) :: addUsage rest key u

/-- The filter-and-aggregate loop of the ingestor: drop rows with unknown hosts
or misaligned windows, and sum bytes per (service_id, window_start). -/
def aggregateUsage (h2s : List (String × Int)) (window : Time)
    (usages : List UsageRow) : List ((Int × Time) × UpsertParams) :=
  usages.foldl (fun aggs u =>
    match lookupAssoc h2s u.host with
    | none => aggs
    | some svcID =>
      if timeTruncate u.windowStart window ≠ u.windowStart
          ∨ u.windowEnd ≠ u.windowStart + window then aggs
      else addUsage aggs (svcID, u.windowStart) u) []

/-- Aggregate lookup by key. -/
def lookupAgg (aggs : List ((Int × Time) × UpsertParams)) (key : Int × Time) :
    Option UpsertParams :=
  (aggs.find? (fun p => p.1 == key)).map (fun p => p.2)

/-- Modelled from the spec: the sqlc-generated `UpsertUsageSnapshot` body is not
among the sources (only its callers are); §4.4 specifies an upsert into
`usage_snapshots` keyed by (service_id, window_start, window_end) under the
unique index, which writes the byte counters and never sets `invoice_id`. -/
def upsertUsageSnapshot (snaps : List UsageSnapshot) (nextID : Int)
    (p : UpsertParams) : List UsageSnapshot × Int :=
  if snaps.any (fun us => us.serviceID = p.serviceID ∧ us.windowStart = p.windowStart
      ∧ us.windowEnd = p.windowEnd) then
    (snaps.map (fun us =>
      if us.serviceID = p.serviceID ∧ us.windowStart = p.windowStart
          ∧ us.windowEnd = p.windowEnd then
        { us with primaryBytes := p.primaryBytes, backupBytes := p.backupBytes }
      else us), nextID)
  else
    (snaps ++ [{ id := nextID, serviceID := p.serviceID, windowStart := p.windowStart,
                 windowEnd := p.windowEnd, primaryBytes := p.primaryBytes,
                 backupBytes := p.backupBytes, invoiceID := none }], nextID + 1)

/-- `usageingestor Engine.RunOnce`: align the clock, build the host map, fetch
usage over `[aligned_now − lookback, aligned_now)`, aggregate, and upsert. -/
def usageRunOnce (activeServiceIDs : List Int) (domains : List (Int × String))
    (snaps : List UsageSnapshot) (nextID : Int)
    (provider : Time → Time → List UsageRow) (now window lookback : Time) :
    Except String (List UsageSnapshot × Int) :=
  if window ≤ 0 then .error "window must be positive"
  else if activeServiceIDs.isEmpty then .ok (snaps, nextID)
  else if (hostToService activeServiceIDs domains).isEmpty then .ok (snaps, nextID)
  else
    .ok ((aggregateUsage (hostToService activeServiceIDs domains) window
        (provider (timeTruncate now window - lookback) (timeTruncate now window))).foldl
      (fun st kp =>
        upsertUsageSnapshot st.1 st.2
          (if kp.2.windowEnd = 0 then { kp.2 with windowEnd := kp.2.windowStart + window }
           else kp.2))
      (snaps, nextID))

/-- Specification-side row eligibility for key (svc, ws): known host mapping to
the service, aligned window boundaries, and the key's window start. -/
def specEligible (h2s : List (String × Int)) (window : Time) (svc : Int)
    (ws : Time) (u : UsageRow) : Bool :=
  (lookupAssoc h2s u.host == some svc)
    && (timeTruncate u.windowStart window == u.windowStart)
    && (u.windowEnd == u.windowStart + window)
    && (u.windowStart == ws)

/-- A snapshot row after ingestion either keeps the `invoice_id` of an input
row with the same (service_id, window_start, window_end) key, or is a fresh row
with NULL `invoice_id` — i.e. the ingestor never sets `invoice_id`. -/
def preservesInvoice (snaps0 : List UsageSnapshot) (us' : UsageSnapshot) : Prop :=
  (∃ us ∈ snaps0, us.serviceID = us'.serviceID ∧ us.windowStart = us'.windowStart
    ∧ us.windowEnd = us'.windowEnd ∧ us'.invoiceID = us.invoiceID)
  ∨ us'.invoiceID = none

theorem latestBy_eq_none {l : List StormEvent} : latestBy l = none ↔ l = [] := by
  constructor
  · intro h
    cases l with
    | nil => rfl
    | cons e es =>
      cases h' : latestBy es <;> simp [latestBy, h'] at h
      split at h <;> simp at h
  · intro h; subst h; rfl

theorem getActive_none_openCount (st : StormState) (sid : Int) (kind : String)
    (h : getActiveStormForPolicy st sid kind = none) : openCount st sid kind = 0 := by
  unfold getActiveStormForPolicy at h
  unfold openCount
  rw [latestBy_eq_none.mp h]
  rfl

theorem openCount_le_length (st : StormState) (sid : Int) (kind : String) :
    openCount st sid kind ≤ st.events.length :=
  List.length_filter_le _ _

theorem openCount_insert (st : StormState) (sid : Int) (kind : String) (now : Time)
    (s : Int) (k : String) :
    openCount (insertStormEvent st sid kind now) s k =
      openCount st s k + (if sid = s ∧ kind = k then 1 else 0) := by
  simp only [openCount, insertStormEvent, List.filter_append, List.length_append]
  congr 1
  by_cases h : sid = s ∧ kind = k
  · obtain ⟨h1, h2⟩ := h
    subst h1; subst h2
    simp [StormEvent.matches, StormEvent.isOpen, List.filter]
  · rw [if_neg h]
    simp [List.filter, StormEvent.matches, StormEvent.isOpen, h]

theorem openCount_markResolved_le (st : StormState) (eid : Int) (t : Time)
    (s : Int) (k : String) :
    openCount (markStormEventResolved st eid t) s k ≤ openCount st s k := by
  simp only [openCount, markStormEventResolved]
  induction st.events with
  | nil => simp
  | cons e es ih =>
    by_cases hid : e.id = eid
    · have hclosed :
        ((if e.id = eid then { e with endedAt := some t } else e).matches s k &&
          (if e.id = eid then { e with endedAt := some t } else e).isOpen) = false := by
        simp [hid, StormEvent.isOpen]
      simp only [List.map_cons, List.filter_cons, hclosed]
      cases hpe : (e.matches s k && e.isOpen) <;> simp [hpe]
      · exact ih
      · exact Nat.le_succ_of_le ih
    · have heq : (if e.id = eid then { e with endedAt := some t } else e) = e := by
        simp [hid]
      simp only [List.map_cons, List.filter_cons, heq]
      cases hpe : (e.matches s k && e.isOpen) <;> simp [hpe]
      · exact ih
      · exact ih

/-- C2: starting from a state with at most one open storm event per
(service_id, kind), `evaluatePolicy` preserves the invariant: a new event is
inserted only when `GetActiveStormForPolicy` reports none for that key, and the
closing branch only sets `ended_at` on existing events. -/
theorem evaluatePolicy_preserves_storm_uniqueness
    (st : StormState) (serviceID : Int) (p : StormPolicy) (avail : ℚ) (now : Time)
    (h : ∀ sid kind, openCount st sid kind ≤ 1) :
    ∀ sid kind, openCount (evaluatePolicy st serviceID p avail now) sid kind ≤ 1 := by
  intro sid kind
  unfold evaluatePolicy
  split
  · -- avail < threshold
    split
    · exact h sid kind
    · rename_i hact
      split
      · split
        · exact h sid kind
        · rw [openCount_insert]
          by_cases hk : serviceID = sid ∧ p.kind = kind
          · rw [if_pos hk]
            obtain ⟨h1, h2⟩ := hk
            subst h1; subst h2
            rw [getActive_none_openCount st serviceID p.kind hact]
          · rw [if_neg hk]
            simpa using h sid kind
      · rw [openCount_insert]
        by_cases hk : serviceID = sid ∧ p.kind = kind
        · rw [if_pos hk]
          obtain ⟨h1, h2⟩ := hk
          subst h1; subst h2
          rw [getActive_none_openCount st serviceID p.kind hact]
        · rw [if_neg hk]
          simpa using h sid kind
  · -- avail ≥ threshold
    split
    · exact le_trans (openCount_markResolved_le st _ now sid kind) (h sid kind)
    · exact h sid kind

/-- Closed witness for C2: a state holding one open event satisfies the
hypothesis, and the preserved invariant is obtained by the theorem. -/
theorem evaluatePolicy_preserves_storm_uniqueness_witness :
    openCount
      (evaluatePolicy
        { events := [{ id := 1, serviceID := 1, kind := "failover",
                       startedAt := 0, endedAt := none }], nextID := 2 }
        1 { kind := "failover", thresholdAvail := 9/10, windowSeconds := 60,
            cooldownSeconds := 300 } (4/10) 30)
      1 "failover" ≤ 1 :=
  evaluatePolicy_preserves_storm_uniqueness
    { events := [{ id := 1, serviceID := 1, kind := "failover",
                   startedAt := 0, endedAt := none }], nextID := 2 }
    1 { kind := "failover", thresholdAvail := 9/10, windowSeconds := 60,
        cooldownSeconds := 300 } (4/10) 30
    (fun sid kind => le_trans (openCount_le_length _ sid kind) (by decide))
    1 "failover" 

/-- C3: with availability below threshold, no active storm, a last event present
and a positive cooldown, the cooldown test suppresses the insert; and in the
closing branch the cooldown is never consulted: the active event is resolved for
every cooldown value. -/
theorem cooldown_suppresses_open_never_close
    (st : StormState) (serviceID : Int) (p : StormPolicy) (avail : ℚ) (now : Time) :
    (avail < p.thresholdAvail →
      getActiveStormForPolicy st serviceID p.kind = none →
      ∀ lastStorm, getLastStormEvent st serviceID p.kind = some lastStorm →
        p.cooldownSeconds > 0 →
        cooldownHolds lastStorm p.cooldownSeconds now = true →
        evaluatePolicy st serviceID p avail now = st)
    ∧ (¬ avail < p.thresholdAvail →
      ∀ active, getActiveStormForPolicy st serviceID p.kind = some active →
        ∀ c : Int,
          evaluatePolicy st serviceID { p with cooldownSeconds := c } avail now
            = markStormEventResolved st active.id now) := by
  constructor
  · intro hav hact lastStorm hlast hpos hcool
    unfold evaluatePolicy
    rw [if_pos hav, hact, hlast]
    simp [hpos, hcool]
  · intro hav active hact c
    unfold evaluatePolicy
    rw [if_neg hav]
    simp only []
    rw [show getActiveStormForPolicy st serviceID p.kind
          = getActiveStormForPolicy st serviceID ({ p with cooldownSeconds := c } : StormPolicy).kind from rfl] at hact
    rw [hact]

/-- Closed witness for C3, on scenario S2 (cooldown honored) and S3 (resolve). -/
theorem cooldown_suppresses_open_never_close_witness :
    (evaluatePolicy
        { events := [{ id := 2, serviceID := 1, kind := "failover",
                       startedAt := -30, endedAt := some (-10) }], nextID := 3 }
        1 { kind := "failover", thresholdAvail := 9/10, windowSeconds := 60,
            cooldownSeconds := 60 } (1/10) 0
      = { events := [{ id := 2, serviceID := 1, kind := "failover",
                       startedAt := -30, endedAt := some (-10) }], nextID := 3 })
    ∧ (evaluatePolicy
        { events := [{ id := 42, serviceID := 1, kind := "failover",
                       startedAt := -300, endedAt := none }], nextID := 43 }
        1 { kind := "failover", thresholdAvail := 9/10, windowSeconds := 60,
            cooldownSeconds := 60 } (99/100) 0
      = markStormEventResolved
          { events := [{ id := 42, serviceID := 1, kind := "failover",
                         startedAt := -300, endedAt := none }], nextID := 43 } 42 0) := by
  constructor
  · exact (cooldown_suppresses_open_never_close _ 1 _ (1/10) 0).1 (by norm_num)
      (by decide)
      { id := 2, serviceID := 1, kind := "failover", startedAt := -30, endedAt := some (-10) }
      (by decide) (by decide) (by decide)
  · exact (cooldown_suppresses_open_never_close _ 1
      { kind := "failover", thresholdAvail := 9/10, windowSeconds := 60,
        cooldownSeconds := 60 } (99/100) 0).2 (by norm_num)
      { id := 42, serviceID := 1, kind := "failover", startedAt := -300, endedAt := none }
      (by decide) 60

theorem trimSamples_eq_filter (cutoff : Time) (l : List ProbeSample)
    (hs : l.Pairwise (fun a b => a.t ≤ b.t)) :
    trimSamples cutoff l = l.filter (fun s => cutoff < s.t) := by
  induction l with
  | nil => rfl
  | cons a l ih =>
    rw [List.pairwise_cons] at hs
    by_cases h : cutoff < a.t
    · have hall : ∀ b ∈ l, (cutoff < b.t) := fun b hb => lt_of_lt_of_le h (hs.1 b hb)
      have h2 : ¬ a.t ≤ cutoff := not_le.mpr h
      simp only [trimSamples, List.dropWhile, List.filter]
      rw [show (decide (a.t ≤ cutoff)) = false by simpa using h2]
      rw [show (decide (cutoff < a.t)) = true by simpa using h]
      rw [List.filter_eq_self.mpr (fun b hb => by simpa using hall b hb)]
    · have h2 : a.t ≤ cutoff := not_lt.mp h
      simp only [trimSamples, List.dropWhile, List.filter]
      rw [show (decide (a.t ≤ cutoff)) = true by simpa using h2]
      rw [show (decide (cutoff < a.t)) = false by simpa using h]
      exact ih hs.2

theorem specSurvivors_mem_ne_nil {cutoff : Time} {targets : TargetSamples}
    {tk : String × List ProbeSample} (h : tk ∈ specSurvivors cutoff targets) :
    tk.2 ≠ [] := by
  unfold specSurvivors at h
  rw [List.mem_filterMap] at h
  obtain ⟨a, _, ha⟩ := h
  split at ha
  · exact absurd ha (by simp)
  · rename_i hne
    cases ha
    simpa [List.isEmpty_iff] using hne

theorem runSurvivors_eq_spec (targets : TargetSamples) (cutoff : Time)
    (hs : ∀ p ∈ targets, p.2.Pairwise (fun a b => a.t ≤ b.t)) :
    runSurvivors cutoff targets = specSurvivors cutoff targets := by
  unfold runSurvivors specSurvivors
  apply List.filterMap_congr
  intro x hx
  rw [trimSamples_eq_filter cutoff x.2 (hs x hx)]

/-- C4: with chronologically recorded samples, `Availability` pools ok/total over
exactly the targets holding a sample newer than `now − window`, evicts fully
expired targets from the state, and returns the configured `empty_availability`
when no target survives; the production constructor default is 0 and the legacy
variant returns 1.0. -/
theorem availability_pooling (e : ℚ) (targets : TargetSamples) (cutoff : Time)
    (hs : ∀ p ∈ targets, p.2.Pairwise (fun a b => a.t ≤ b.t)) :
    (availabilityRun e targets cutoff).1 = specSurvivors cutoff targets
    ∧ (specSurvivors cutoff targets ≠ [] →
        (availabilityRun e targets cutoff).2
          = (okCountOf (specSurvivors cutoff targets) : ℚ)
            / (totalCountOf (specSurvivors cutoff targets) : ℚ))
    ∧ (specSurvivors cutoff targets = [] → (availabilityRun e targets cutoff).2 = e)
    ∧ newInMemoryMetricsDefault = 0
    ∧ (∀ samples : List ProbeSample, trimSamples cutoff samples = [] →
        (availabilityLegacy samples cutoff).2 = 1) := by
  have hsurv := runSurvivors_eq_spec targets cutoff hs
  have htotal : specSurvivors cutoff targets ≠ [] →
      totalCountOf (specSurvivors cutoff targets) ≠ 0 := by
    intro hne h0
    cases hposs : specSurvivors cutoff targets with
    | nil => exact hne hposs
    | cons a l =>
      have ha : a ∈ specSurvivors cutoff targets := by rw [hposs]; simp
      have hlen : a.2.length ≠ 0 := by
        simpa [List.length_eq_zero] using specSurvivors_mem_ne_nil ha
      unfold totalCountOf at h0
      rw [hposs] at h0
      simp only [List.map_cons, List.sum_cons] at h0
      omega
  refine ⟨?_, ?_, ?_, rfl, ?_⟩
  · unfold availabilityRun
    split
    · rename_i hemp
      rw [List.isEmpty_iff] at hemp
      subst hemp
      simp [specSurvivors]
    · rw [hsurv]
      split
      · rename_i hemp
        rw [List.isEmpty_iff] at hemp
        exact hemp.symm
      · split <;> rfl
  · intro hne
    unfold availabilityRun
    split
    · rename_i hemp
      rw [List.isEmpty_iff] at hemp
      subst hemp
      simp [specSurvivors] at hne
    · rw [hsurv]
      split
      · rename_i hemp
        rw [List.isEmpty_iff] at hemp
        exact absurd hemp hne
      · split
        · rename_i h0
          exact absurd h0 (htotal hne)
        · rfl
  · intro hnil
    unfold availabilityRun
    split
    · rfl
    · rw [hsurv]
      split
      · rfl
      · rename_i hemp
        rw [hnil] at hemp
        simp at hemp
  · intro samples htrim
    unfold availabilityLegacy
    split
    · rfl
    · rw [htrim]
      simp

/-- Closed witness for C4: one live target, one expired target; the expired
target is evicted and the figure is 1/2. -/
theorem availability_pooling_witness :
    ((availabilityRun 0
        [("a", [{ t := 1, ok := true }, { t := 5, ok := false }]),
         ("b", [{ t := -5, ok := true }])] 0).1
      = specSurvivors 0
          [("a", [{ t := 1, ok := true }, { t := 5, ok := false }]),
           ("b", [{ t := -5, ok := true }])])
    ∧ (specSurvivors 0
          [("a", [{ t := 1, ok := true }, { t := 5, ok := false }]),
           ("b", [{ t := -5, ok := true }])] ≠ [] →
        (availabilityRun 0
          [("a", [{ t := 1, ok := true }, { t := 5, ok := false }]),
           ("b", [{ t := -5, ok := true }])] 0).2
          = (okCountOf (specSurvivors 0
              [("a", [{ t := 1, ok := true }, { t := 5, ok := false }]),
               ("b", [{ t := -5, ok := true }])]) : ℚ)
            / (totalCountOf (specSurvivors 0
              [("a", [{ t := 1, ok := true }, { t := 5, ok := false }]),
               ("b", [{ t := -5, ok := true }])]) : ℚ))
    ∧ (specSurvivors 0
          [("a", [{ t := 1, ok := true }, { t := 5, ok := false }]),
           ("b", [{ t := -5, ok := true }])] = [] →
        (availabilityRun 0
          [("a", [{ t := 1, ok := true }, { t := 5, ok := false }]),
           ("b", [{ t := -5, ok := true }])] 0).2 = 0)
    ∧ newInMemoryMetricsDefault = 0
    ∧ (∀ samples : List ProbeSample, trimSamples 0 samples = [] →
        (availabilityLegacy samples 0).2 = 1) :=
  availability_pooling 0
    [("a", [{ t := 1, ok := true }, { t := 5, ok := false }]),
     ("b", [{ t := -5, ok := true }])] 0 (by decide)

theorem retryGo_first_success (once : Nat → Except String Unit × List ChangeBatch) :
    ∀ k a r, 1 ≤ k → k ≤ r →
      (∀ i, a ≤ i → i < a + (k - 1) → ∃ e, (once i).1 = .error e) →
      (once (a + (k - 1))).1 = .ok () →
      (retryGo once a r).result = .ok ()
      ∧ (retryGo once a r).attempts = k
      ∧ (retryGo once a r).sleeps = (List.range (k - 1)).map (fun j => backoffMs (a + j)) := by
  intro k
  induction k with
  | zero => intro a r h1; omega
  | succ k ih =>
    intro a r h1 hkr hfail hok
    cases r with
    | zero => omega
    | succ r' =>
      cases k with
      | zero =>
        have hok' : (once a).1 = .ok () := by simpa using hok
        unfold retryGo
        cases hcall : once a with
        | mk res calls =>
          rw [hcall] at hok'
          simp only at hok'
          subst hok'
          simp
      | succ k' =>
        have hfa : ∃ e, (once a).1 = .error e := hfail a le_rfl (by omega)
        obtain ⟨e, he⟩ := hfa
        have hr' : r' ≠ 0 := by omega
        have ihres := ih (a + 1) r' (by omega) (by omega)
          (fun i hi1 hi2 => hfail i (by omega) (by omega))
          (by
            have : a + 1 + (k' + 1 - 1) = a + (k' + 1 + 1 - 1) := by omega
            rw [this]; exact hok)
        unfold retryGo
        cases hcall : once a with
        | mk res calls =>
          rw [hcall] at he
          simp only at he
          subst he
          simp only [hr', if_false]
          refine ⟨ihres.1, by simp [ihres.2.1], ?_⟩
          simp only [ihres.2.2]
          have hrange : k' + 1 + 1 - 1 = (k' + 1 - 1) + 1 := by omega
          rw [hrange, List.range_succ_eq_map, List.map_cons, List.map_map]
          simp only [List.cons.injEq, Nat.add_zero, true_and]
          apply List.map_congr_left
          intro j hj
          simp only [Function.comp_apply]
          congr 1
          omega

theorem retryGo_all_fail (once : Nat → Except String Unit × List ChangeBatch) :
    ∀ r a, 1 ≤ r →
      (∀ i, a ≤ i → i < a + r → ∃ e, (once i).1 = .error e) →
      ∀ lastE, (once (a + (r - 1))).1 = .error lastE →
      (retryGo once a r).result = .error lastE
      ∧ (retryGo once a r).attempts = r
      ∧ (retryGo once a r).sleeps = (List.range (r - 1)).map (fun j => backoffMs (a + j)) := by
  intro r
  induction r with
  | zero => intro a h1; omega
  | succ r' ih =>
    intro a h1 hfail lastE hlast
    cases r' with
    | zero =>
      have hlast' : (once a).1 = .error lastE := by simpa using hlast
      unfold retryGo
      cases hcall : once a with
      | mk res calls =>
        rw [hcall] at hlast'
        simp only at hlast'
        subst hlast'
        simp
    | succ r'' =>
      have hfa : ∃ e, (once a).1 = .error e := hfail a le_rfl (by omega)
      obtain ⟨e, he⟩ := hfa
      have ihres := ih (a + 1) (by omega)
        (fun i hi1 hi2 => hfail i (by omega) (by omega))
        lastE
        (by
          have : a + 1 + (r'' + 1 - 1) = a + (r'' + 1 + 1 - 1) := by omega
          rw [this]; exact hlast)
      unfold retryGo
      cases hcall : once a with
      | mk res calls =>
        rw [hcall] at he
        simp only at he
        subst he
        simp only [Nat.succ_ne_zero, if_false]
        refine ⟨ihres.1, by simp [ihres.2.1], ?_⟩
        simp only [ihres.2.2]
        have hrange : r'' + 1 + 1 - 1 = (r'' + 1 - 1) + 1 := by omega
        rw [hrange, List.range_succ_eq_map, List.map_cons, List.map_map]
        simp only [List.cons.injEq, Nat.add_zero, true_and]
        apply List.map_congr_left
        intro j hj
        simp only [Function.comp_apply]
        congr 1
        omega

/-- C8: `SetWeights` retries up to `max_attempts` (3 when the configured value is
≤ 0), sleeps `200ms·2^(attempt−1)` between consecutive failed attempts, succeeds
on the first successful attempt, and after exhaustion returns an error wrapping
the last failure. -/
theorem route53_setweights_retry
    (once : Nat → Except String Unit × List ChangeBatch) (domain : Str) (cfg : Int)
    (hdom : ¬ strTrim domain = []) :
    (cfg ≤ 0 → normMaxAttempts cfg = 3)
    ∧ (∀ k, 1 ≤ k → k ≤ normMaxAttempts cfg →
        (∀ i, 1 ≤ i → i < k → ∃ e, (once i).1 = .error e) →
        (once k).1 = .ok () →
        (setWeightsRun once domain (normMaxAttempts cfg)).result = .ok ()
        ∧ (setWeightsRun once domain (normMaxAttempts cfg)).attempts = k
        ∧ (setWeightsRun once domain (normMaxAttempts cfg)).sleeps
            = (List.range (k - 1)).map (fun j => 2 ^ j * 200))
    ∧ (∀ lastE,
        (∀ i, 1 ≤ i → i ≤ normMaxAttempts cfg → ∃ e, (once i).1 = .error e) →
        (once (normMaxAttempts cfg)).1 = .error lastE →
        (setWeightsRun once domain (normMaxAttempts cfg)).result
            = .error (wrapSetWeightsErr (trimSuffixStr domain ".".toList) lastE)
        ∧ (setWeightsRun once domain (normMaxAttempts cfg)).attempts = normMaxAttempts cfg
        ∧ (setWeightsRun once domain (normMaxAttempts cfg)).sleeps
            = (List.range (normMaxAttempts cfg - 1)).map (fun j => 2 ^ j * 200)) := by
  have hsleep : ∀ n, (List.range n).map (fun j => backoffMs (1 + j))
      = (List.range n).map (fun j => 2 ^ j * 200) := by
    intro n
    exact List.map_congr_left (fun j hj => by simp [backoffMs])
  refine ⟨fun h => by simp [normMaxAttempts, h], ?_, ?_⟩
  · intro k hk1 hkN hfail hok
    have hres := retryGo_first_success once k 1 (normMaxAttempts cfg) hk1 hkN
      (fun i hi1 hi2 => hfail i hi1 (by omega))
      (by
        have : 1 + (k - 1) = k := by omega
        rw [this]; exact hok)
    unfold setWeightsRun
    rw [if_neg hdom]
    refine ⟨?_, by simp [hres.2.1], ?_⟩
    · simp only [hres.1]
    · simp only [hres.2.2, hsleep]
  · intro lastE hfail hlast
    have hN : 1 ≤ normMaxAttempts cfg := by
      unfold normMaxAttempts
      split
      · omega
      · rename_i h
        omega
    have hres := retryGo_all_fail once (normMaxAttempts cfg) 1 hN
      (fun i hi1 hi2 => hfail i hi1 (by omega))
      lastE
      (by
        have : 1 + (normMaxAttempts cfg - 1) = normMaxAttempts cfg := by omega
        rw [this]; exact hlast)
    unfold setWeightsRun
    rw [if_neg hdom]
    refine ⟨?_, by simp [hres.2.1], ?_⟩
    · simp only [hres.1]
    · simp only [hres.2.2, hsleep]

/-- Closed witness for C8, scenario S5: first attempt fails, second succeeds,
`max_attempts = 2`; two attempts, final success, one 200ms backoff. -/
theorem route53_setweights_retry_witness :
    (setWeightsRun (fun i => if i = 1 then (.error "throttled", []) else (.ok (), []))
        "example.com".toList (normMaxAttempts 2)).result = .ok ()
    ∧ (setWeightsRun (fun i => if i = 1 then (.error "throttled", []) else (.ok (), []))
        "example.com".toList (normMaxAttempts 2)).attempts = 2
    ∧ (setWeightsRun (fun i => if i = 1 then (.error "throttled", []) else (.ok (), []))
        "example.com".toList (normMaxAttempts 2)).sleeps
        = (List.range 1).map (fun j => 2 ^ j * 200) :=
  (route53_setweights_retry
      (fun i => if i = 1 then (.error "throttled", []) else (.ok (), []))
      "example.com".toList 2 (by decide)).2.1 2 (by decide) (by decide)
    (fun i h1 h2 => by
      have : i = 1 := by omega
      subst this
      exact ⟨"throttled", rfl⟩)
    rfl

theorem scanStep_isSome (domain : Str) (acc : Option RecordSet × Option RecordSet)
    (rr : RecordSet) :
    (acc.1.isSome → (scanStep domain acc rr).1.isSome)
    ∧ (acc.2.isSome → (scanStep domain acc rr).2.isSome) := by
  unfold scanStep
  split
  · exact ⟨id, id⟩
  · split
    · split
      · exact ⟨fun _ => rfl, id⟩
      · split
        · exact ⟨id, fun _ => rfl⟩
        · exact ⟨id, id⟩
    · exact ⟨id, id⟩

theorem scanRecords_isSome (domain : Str) (page : List RecordSet) :
    ∀ acc : Option RecordSet × Option RecordSet,
      (acc.1.isSome → (scanRecords domain acc page).1.isSome)
      ∧ (acc.2.isSome → (scanRecords domain acc page).2.isSome) := by
  induction page with
  | nil => intro acc; exact ⟨id, id⟩
  | cons rr rest ih =>
    intro acc
    have hstep := scanStep_isSome domain acc rr
    have hrest := ih (scanStep domain acc rr)
    unfold scanRecords at hrest ⊢
    rw [List.foldl_cons]
    exact ⟨fun h => hrest.1 (hstep.1 h), fun h => hrest.2 (hstep.2 h)⟩

theorem scanFold_isSome (domain : Str) (pages : List (List RecordSet)) :
    ∀ acc : Option RecordSet × Option RecordSet,
      (acc.1.isSome → (pages.foldl (scanRecords domain) acc).1.isSome)
      ∧ (acc.2.isSome → (pages.foldl (scanRecords domain) acc).2.isSome) := by
  induction pages with
  | nil => intro acc; exact ⟨id, id⟩
  | cons page rest ih =>
    intro acc
    have hpage := scanRecords_isSome domain page acc
    have hrest := ih (scanRecords domain acc page)
    rw [List.foldl_cons]
    exact ⟨fun h => hrest.1 (hpage.1 h), fun h => hrest.2 (hpage.2 h)⟩

theorem lookupHostedZone_error (zones : List HostedZone) (domain : Str)
    (h : ∀ z ∈ zones, trimSuffixStr z.name ".".toList = []
          ∨ strEndsWith domain (trimSuffixStr z.name ".".toList) = false) :
    ∃ e, lookupHostedZone zones domain = .error e := by
  unfold lookupHostedZone
  have key : ∀ (l : List HostedZone) (acc : Str × Str),
      (∀ z ∈ l, trimSuffixStr z.name ".".toList = []
        ∨ strEndsWith domain (trimSuffixStr z.name ".".toList) = false) →
      l.foldl (fun (acc : Str × Str) z =>
        let zoneName := trimSuffixStr z.name ".".toList
        if zoneName = [] then acc
        else if !(strEndsWith domain zoneName) then acc
        else if zoneName.length > acc.1.length then (zoneName, trimPfxStr z.zid "/hostedzone/".toList)
        else acc) acc = acc := by
    intro l
    induction l with
    | nil => intro acc _; rfl
    | cons z rest ih =>
      intro acc hl
      rw [List.foldl_cons]
      have hz := hl z (by simp)
      have hstep : (let zoneName := trimSuffixStr z.name ".".toList
          if zoneName = [] then acc
          else if !(strEndsWith domain zoneName) then acc
          else if zoneName.length > acc.1.length then (zoneName, trimPfxStr z.zid "/hostedzone/".toList)
          else acc) = acc := by
        cases hz with
        | inl h0 =>
          have h0' : trimSuffixStr z.name ['.'] = [] := h0
          simp [h0']
        | inr h0 =>
          have h0' : strEndsWith domain (trimSuffixStr z.name ['.']) = false := h0
          simp [h0']
      rw [hstep]
      exact ih acc (fun w hw => hl w (by simp [hw]))
  rw [key zones ([], []) h]
  exact ⟨_, rfl⟩

theorem fetchWeightedRecords_error (domain : Str) :
    ∀ (pages : List (List RecordSet)) (acc : Option RecordSet × Option RecordSet),
      ((pages.foldl (scanRecords domain) acc).1 = none
        ∨ (pages.foldl (scanRecords domain) acc).2 = none) →
      ∃ e, fetchWeightedRecords domain pages acc = .error e := by
  intro pages
  induction pages with
  | nil =>
    intro acc hfin
    simp only [List.foldl_nil] at hfin
    unfold fetchWeightedRecords
    match acc, hfin with
    | (some p, some b), hfin => simp at hfin
    | (none, _), _ => exact ⟨_, rfl⟩
    | (some _, none), _ => exact ⟨_, rfl⟩
  | cons page rest ih =>
    intro acc hfin
    rw [List.foldl_cons] at hfin
    have hnotboth : ¬ (∃ p b, scanRecords domain acc page = (some p, some b)) := by
      rintro ⟨p, b, hpb⟩
      rw [hpb] at hfin
      have h1 := (scanFold_isSome domain rest ((some p : Option RecordSet), (some b : Option RecordSet))).1 (by rfl)
      have h2 := (scanFold_isSome domain rest ((some p : Option RecordSet), (some b : Option RecordSet))).2 (by rfl)
      cases hfin with
      | inl hh => rw [hh] at h1; simp at h1
      | inr hh => rw [hh] at h2; simp at h2
    unfold fetchWeightedRecords
    match hscan : scanRecords domain acc page with
    | (some p, some b) => exact absurd ⟨p, b, hscan⟩ hnotboth
    | (none, o2) =>
      rw [hscan] at hfin
      by_cases hrest : rest.isEmpty
      · rw [List.isEmpty_iff] at hrest
        subst hrest
        simp only [List.foldl_nil] at hfin
        simp only [List.isEmpty_nil, if_true]
        exact ⟨_, rfl⟩
      · simp only [hrest, if_false]
        exact ih (none, o2) hfin
    | (some p, none) =>
      rw [hscan] at hfin
      by_cases hrest : rest.isEmpty
      · rw [List.isEmpty_iff] at hrest
        subst hrest
        simp only [List.foldl_nil] at hfin
        simp only [List.isEmpty_nil, if_true]
        exact ⟨_, rfl⟩
      · simp only [hrest, if_false]
        exact ih (some p, none) hfin

theorem setWeightsOnce_error_no_calls (cl : R53Client) (nd : Str) (pw bw : Int)
    (h : (∀ z ∈ cl.zones, trimSuffixStr z.name ".".toList = []
          ∨ strEndsWith nd (trimSuffixStr z.name ".".toList) = false)
      ∨ ((cl.pages.foldl (scanRecords nd) (none, none)).1 = none
        ∨ (cl.pages.foldl (scanRecords nd) (none, none)).2 = none)) :
    ∃ e, setWeightsOnce cl nd pw bw = (.error e, []) := by
  unfold setWeightsOnce
  cases h with
  | inl hzone =>
    obtain ⟨e, he⟩ := lookupHostedZone_error cl.zones nd hzone
    rw [he]
    exact ⟨e, rfl⟩
  | inr hrec =>
    cases hlook : lookupHostedZone cl.zones nd with
    | error e => exact ⟨e, rfl⟩
    | ok zoneID =>
      obtain ⟨e, he⟩ := fetchWeightedRecords_error nd cl.pages (none, none) hrec
      rw [he]
      exact ⟨e, rfl⟩

theorem retryGo_const_error (once : Nat → Except String Unit × List ChangeBatch)
    (h : ∀ i, ∃ e, once i = (.error e, [])) :
    ∀ r a, (∃ m, (retryGo once a r).result = .error m)
      ∧ (retryGo once a r).calls = [] := by
  intro r
  induction r with
  | zero => intro a; exact ⟨⟨"", rfl⟩, rfl⟩
  | succ r' ih =>
    intro a
    obtain ⟨e, he⟩ := h a
    unfold retryGo
    rw [he]
    by_cases hr : r' = 0
    · subst hr
      simp only [if_pos rfl]
      exact ⟨⟨e, rfl⟩, rfl⟩
    · simp only [hr, if_false]
      refine ⟨(ih (a + 1)).1, ?_⟩
      simp [(ih (a + 1)).2]

/-- C10: `SetWeights` returns an error and never submits a change batch when the
domain is blank/whitespace, when no hosted zone name is a suffix of the
normalized domain, or when weighted primary/backup records are not found after
pagination is exhausted. -/
theorem route53_no_change_without_records
    (cl : R53Client) (domain : Str) (pw bw : Int) (cfg : Int)
    (h : strTrim domain = []
      ∨ (∀ z ∈ cl.zones, trimSuffixStr z.name ".".toList = []
          ∨ strEndsWith (trimSuffixStr domain ".".toList)
              (trimSuffixStr z.name ".".toList) = false)
      ∨ ((cl.pages.foldl (scanRecords (trimSuffixStr domain ".".toList)) (none, none)).1 = none
        ∨ (cl.pages.foldl (scanRecords (trimSuffixStr domain ".".toList)) (none, none)).2 = none)) :
    (∃ e, (route53SetWeights cl cfg domain pw bw).result = .error e)
    ∧ (route53SetWeights cl cfg domain pw bw).calls = [] := by
  unfold route53SetWeights setWeightsRun
  by_cases hblank : strTrim domain = []
  · rw [if_pos hblank]
    exact ⟨⟨_, rfl⟩, rfl⟩
  · rw [if_neg hblank]
    have hcond := h.resolve_left hblank
    have honce : ∀ i : Nat, ∃ e,
        (fun _ => setWeightsOnce cl (trimSuffixStr domain ".".toList) pw bw) i
          = (.error e, []) := by
      intro i
      exact setWeightsOnce_error_no_calls cl (trimSuffixStr domain ".".toList) pw bw hcond
    have hret := retryGo_const_error _ honce (normMaxAttempts cfg) 1
    obtain ⟨⟨m, hm⟩, hcalls⟩ := hret
    refine ⟨⟨wrapSetWeightsErr (trimSuffixStr domain ".".toList) m, ?_⟩, hcalls⟩
    simp only [hm]

/-- Closed witness for C10: a whitespace domain is rejected with no change
batches submitted. -/
theorem route53_no_change_without_records_witness :
    (∃ e, (route53SetWeights ⟨[], []⟩ 3 " ".toList 0 100).result = .error e)
    ∧ (route53SetWeights ⟨[], []⟩ 3 " ".toList 0 100).calls = [] :=
  route53_no_change_without_records ⟨[], []⟩ " ".toList 0 100 3 (Or.inl (by decide))

theorem ensureLoops_subset (keys : List Str) : ∀ ls : List Str, ls ⊆ ensureLoops ls keys := by
  induction keys with
  | nil => intro ls; exact List.Subset.refl _
  | cons k rest ih =>
    intro ls
    unfold ensureLoops
    rw [List.foldl_cons]
    intro x hx
    apply ih (if k ∈ ls then ls else ls ++ [k])
    split
    · exact hx
    · exact List.mem_append_left _ hx

theorem reconcileStep_loops_subset (acc : List Str × List Str)
    (svc : Int × Option (List Str)) : acc.2 ⊆ (reconcileStep acc svc).2 := by
  unfold reconcileStep
  cases svc.2 with
  | none => exact List.Subset.refl _
  | some keys => exact ensureLoops_subset keys acc.2

theorem reconcileFold_loops_subset (services : List (Int × Option (List Str))) :
    ∀ acc : List Str × List Str, acc.2 ⊆ (services.foldl reconcileStep acc).2 := by
  induction services with
  | nil => intro acc; exact List.Subset.refl _
  | cons svc rest ih =>
    intro acc
    rw [List.foldl_cons]
    intro x hx
    exact ih (reconcileStep acc svc) (reconcileStep_loops_subset acc svc hx)

theorem reconcileStep_active_subset (acc : List Str × List Str)
    (svc : Int × Option (List Str)) : acc.1 ⊆ (reconcileStep acc svc).1 := by
  unfold reconcileStep
  cases svc.2 with
  | none => intro x hx; exact List.mem_append_left _ hx
  | some keys => intro x hx; exact List.mem_append_left _ hx

theorem reconcileFold_active_subset (services : List (Int × Option (List Str))) :
    ∀ acc : List Str × List Str, acc.1 ⊆ (services.foldl reconcileStep acc).1 := by
  induction services with
  | nil => intro acc; exact List.Subset.refl _
  | cons svc rest ih =>
    intro acc
    rw [List.foldl_cons]
    intro x hx
    exact ih (reconcileStep acc svc) (reconcileStep_active_subset acc svc hx)

theorem reconcileFold_active_of_failed (sid : Int) (k : Str)
    (hpre : strStartsWith k (servicePrefixKey sid) = true) :
    ∀ (services : List (Int × Option (List Str))) (acc : List Str × List Str),
      (sid, none) ∈ services → k ∈ acc.2 →
      k ∈ (services.foldl reconcileStep acc).1 := by
  intro services
  induction services with
  | nil => intro acc hmem; simp at hmem
  | cons svc rest ih =>
    intro acc hmem hk
    rw [List.foldl_cons]
    rcases List.mem_cons.mp hmem with heq | hrest
    · subst heq
      apply reconcileFold_active_subset rest
      unfold reconcileStep
      simp only
      apply List.mem_append_right
      exact List.mem_filter.mpr ⟨hk, hpre⟩
    · exact ih (reconcileStep acc svc) hrest (reconcileStep_loops_subset acc svc hk)

/-- C7: a running loop of a service whose domain fetch failed is kept in the
desired set and survives the reconcile; in scenario S4, loops `1:10:a` and
`1:11:b` remain and `2:10:other` is retained exactly when service 2's fetched
target keys still include it. -/
theorem reconcile_preserves_on_error :
    (∀ (loops : List Str) (services : List (Int × Option (List Str))) (sid : Int) (k : Str),
        (sid, none) ∈ services → k ∈ loops →
        strStartsWith k (servicePrefixKey sid) = true →
        k ∈ reconcileOnce loops services)
    ∧ (∀ d2 : List Str,
        "1:10:a".toList ∈ reconcileOnce
            ["1:10:a".toList, "1:11:b".toList, "2:10:other".toList]
            [(1, none), (2, some d2)]
        ∧ "1:11:b".toList ∈ reconcileOnce
            ["1:10:a".toList, "1:11:b".toList, "2:10:other".toList]
            [(1, none), (2, some d2)]
        ∧ ("2:10:other".toList ∈ reconcileOnce
            ["1:10:a".toList, "1:11:b".toList, "2:10:other".toList]
            [(1, none), (2, some d2)]
          ↔ "2:10:other".toList ∈ d2)) := by
  have hgen : ∀ (loops : List Str) (services : List (Int × Option (List Str)))
      (sid : Int) (k : Str),
      (sid, none) ∈ services → k ∈ loops →
      strStartsWith k (servicePrefixKey sid) = true →
      k ∈ reconcileOnce loops services := by
    intro loops services sid k hmem hk hpre
    unfold reconcileOnce
    apply List.mem_filter.mpr
    refine ⟨reconcileFold_loops_subset services ([], loops) hk, ?_⟩
    simp only [decide_eq_true_eq]
    exact reconcileFold_active_of_failed sid k hpre services ([], loops) hmem hk
  refine ⟨hgen, ?_⟩
  intro d2
  have hstep1 : reconcileStep ([], ["1:10:a".toList, "1:11:b".toList, "2:10:other".toList])
      (1, none)
      = (["1:10:a".toList, "1:11:b".toList],
         ["1:10:a".toList, "1:11:b".toList, "2:10:other".toList]) := by decide
  have hfold : [((1 : Int), (none : Option (List Str))), (2, some d2)].foldl reconcileStep
      ([], ["1:10:a".toList, "1:11:b".toList, "2:10:other".toList])
      = (["1:10:a".toList, "1:11:b".toList] ++ d2,
         ensureLoops ["1:10:a".toList, "1:11:b".toList, "2:10:other".toList] d2) := by
    rw [List.foldl_cons, hstep1, List.foldl_cons, List.foldl_nil]
    rfl
  unfold reconcileOnce
  rw [hfold]
  refine ⟨?_, ?_, ?_⟩
  · apply List.mem_filter.mpr
    refine ⟨ensureLoops_subset d2 _ (by decide), ?_⟩
    simp only [decide_eq_true_eq]
    apply List.mem_append_left
    decide
  · apply List.mem_filter.mpr
    refine ⟨ensureLoops_subset d2 _ (by decide), ?_⟩
    simp only [decide_eq_true_eq]
    apply List.mem_append_left
    decide
  · constructor
    · intro hmem
      have := (List.mem_filter.mp hmem).2
      simp only [decide_eq_true_eq] at this
      rcases List.mem_append.mp this with hl | hr
      · exact absurd hl (by decide)
      · exact hr
    · intro hmem
      apply List.mem_filter.mpr
      refine ⟨ensureLoops_subset d2 _ (by decide), ?_⟩
      simp only [decide_eq_true_eq]
      exact List.mem_append_right _ hmem

/-- Closed witness for C7: on scenario S4 with service 2 fetching
`[2:10:other]`, all three loops survive, and the general preservation theorem
applies to loop `1:10:a` directly. -/
theorem reconcile_preserves_on_error_witness :
    "1:10:a".toList ∈ reconcileOnce
        ["1:10:a".toList, "1:11:b".toList, "2:10:other".toList]
        [(1, none), (2, some ["2:10:other".toList])] :=
  (reconcile_preserves_on_error).1
    ["1:10:a".toList, "1:11:b".toList, "2:10:other".toList]
    [(1, none), (2, some ["2:10:other".toList])] 1 "1:10:a".toList
    (by decide) (by decide) (by decide)

theorem insertSorted_mem {le : α → α → Bool} {x y : α} :
    ∀ {l : List α}, x ∈ insertSorted le y l ↔ x = y ∨ x ∈ l := by
  intro l
  induction l with
  | nil => simp [insertSorted]
  | cons a rest ih =>
    unfold insertSorted
    split
    · simp
    · simp only [List.mem_cons, ih]
      tauto

theorem sortBy_mem {le : α → α → Bool} {l : List α} {x : α} :
    x ∈ sortBy le l ↔ x ∈ l := by
  induction l with
  | nil => simp [sortBy]
  | cons a rest ih =>
    unfold sortBy at ih ⊢
    rw [List.foldr_cons, insertSorted_mem, ih]
    simp

theorem clipStorm_bounds {windowStart windowEnd : Time} {storm : StormEvent}
    {p : Time × Time} (h : clipStorm windowStart windowEnd storm = some p) :
    p.1 ≤ p.2 := by
  unfold clipStorm at h
  by_cases hlt : clipEnd windowEnd storm < clipStart windowStart storm
  · rw [if_pos hlt] at h
    exact absurd h (by simp)
  · rw [if_neg hlt] at h
    cases h
    exact not_lt.mp hlt

theorem mergeStep_bounds {acc : List (Time × Time)} {iv : Time × Time}
    (hacc : ∀ p ∈ acc, p.1 ≤ p.2) (hiv : iv.1 ≤ iv.2) :
    ∀ p ∈ mergeStep acc iv, p.1 ≤ p.2 := by
  cases acc with
  | nil =>
    intro p hp
    simp only [mergeStep, List.mem_singleton] at hp
    subst hp
    exact hiv
  | cons last rest =>
    have hlast := hacc last (by simp)
    have hrest : ∀ p ∈ rest, p.1 ≤ p.2 := fun p hp => hacc p (by simp [hp])
    intro p hp
    simp only [mergeStep] at hp
    split at hp
    · rcases List.mem_cons.mp hp with h1 | hp2
      · subst h1; exact hiv
      · rcases List.mem_cons.mp hp2 with h2 | h3
        · subst h2; exact hlast
        · exact hrest p h3
    · split at hp
      · rename_i hlt
        rcases List.mem_cons.mp hp with h1 | h2
        · subst h1
          exact le_trans hlast (le_of_lt hlt)
        · exact hrest p h2
      · rcases List.mem_cons.mp hp with h1 | h2
        · subst h1; exact hlast
        · exact hrest p h2

theorem mergeFold_bounds (l : List (Time × Time)) :
    ∀ acc, (∀ p ∈ acc, p.1 ≤ p.2) → (∀ p ∈ l, p.1 ≤ p.2) →
      ∀ p ∈ l.foldl mergeStep acc, p.1 ≤ p.2 := by
  induction l with
  | nil => intro acc hacc _; simpa using hacc
  | cons iv rest ih =>
    intro acc hacc hl
    rw [List.foldl_cons]
    exact ih (mergeStep acc iv)
      (mergeStep_bounds hacc (hl iv (by simp)))
      (fun p hp => hl p (by simp [hp]))

theorem coveredSeconds_nonneg (windowStart windowEnd : Time)
    (storms : List StormEvent) : 0 ≤ coveredSeconds windowStart windowEnd storms := by
  have hsorted : ∀ p ∈ sortBy (fun a b => a.1 ≤ b.1)
      (storms.filterMap (clipStorm windowStart windowEnd)), p.1 ≤ p.2 := by
    intro p hp
    rw [sortBy_mem] at hp
    obtain ⟨storm, _, hstorm⟩ := List.mem_filterMap.mp hp
    exact clipStorm_bounds hstorm
  have hmerged := mergeFold_bounds _ [] (by simp) hsorted
  unfold coveredSeconds
  apply List.sum_nonneg
  intro x hx
  obtain ⟨iv, hiv, hx⟩ := List.mem_map.mp hx
  subst hx
  have h1 := hmerged iv hiv
  have h2 : (0 : Int) ≤ iv.2 - iv.1 := sub_nonneg.mpr h1
  exact_mod_cast h2

theorem coverageRatio_bounds (windowStart windowEnd : Time)
    (storms : List StormEvent) :
    0 ≤ coverageRatio windowStart windowEnd storms
    ∧ coverageRatio windowStart windowEnd storms ≤ 1 := by
  unfold coverageRatio
  split
  · norm_num
  · rename_i hdur
    have hd : (0 : ℚ) < ((windowEnd - windowStart : Int) : ℚ) := lt_of_not_le hdur
    split
    · norm_num
    · have hcov := coveredSeconds_nonneg windowStart windowEnd storms
      constructor
      · apply div_nonneg _ (le_of_lt hd)
        split
        · exact le_of_lt hd
        · exact hcov
      · rw [div_le_one hd]
        split
        · exact le_refl _
        · rename_i hlt
          exact le_of_not_lt hlt

/-- C5: the computed coverage lies in [0, max_coverage_factor] (the merged
interval fraction is in [0,1], scaled and clamped), and the computed discount
never exceeds the line subtotal. -/
theorem coverage_clamping (rate : Int) (discountRate : ℚ) (maxCoverage : ℚ)
    (snap : SnapRow) (storms : List StormEvent) (hmc : 0 ≤ maxCoverage) :
    0 ≤ (lineNumbers rate discountRate maxCoverage snap storms).coverage
    ∧ (lineNumbers rate discountRate maxCoverage snap storms).coverage ≤ maxCoverage
    ∧ (lineNumbers rate discountRate maxCoverage snap storms).discount
        ≤ (lineNumbers rate discountRate maxCoverage snap storms).lineSubtotal := by
  obtain ⟨h0, h1⟩ := coverageRatio_bounds snap.windowStart snap.windowEnd storms
  unfold lineNumbers
  refine ⟨?_, ?_, ?_⟩
  · show 0 ≤ coverageOf maxCoverage snap storms
    unfold coverageOf
    split
    · exact hmc
    · exact mul_nonneg h0 hmc
  · show coverageOf maxCoverage snap storms ≤ maxCoverage
    unfold coverageOf
    split
    · exact le_refl _
    · rename_i h
      exact le_of_not_lt h
  · show discountOf rate discountRate maxCoverage snap storms ≤ lineSubtotalOf rate snap
    unfold discountOf
    split
    · exact le_refl _
    · rename_i h
      exact le_of_not_lt h

/-- Closed witness for C5 at the S6 inputs. -/
theorem coverage_clamping_witness :
    0 ≤ (lineNumbers 12 (1/2) (3/2)
          { id := 10, serviceID := 1, customerID := 7, windowStart := 0,
            windowEnd := 3600, primaryBytes := 1073741824, backupBytes := 1073741824 }
          [{ id := 5, serviceID := 1, kind := "failover",
             startedAt := 0, endedAt := some 1800 }]).coverage
    ∧ (lineNumbers 12 (1/2) (3/2)
          { id := 10, serviceID := 1, customerID := 7, windowStart := 0,
            windowEnd := 3600, primaryBytes := 1073741824, backupBytes := 1073741824 }
          [{ id := 5, serviceID := 1, kind := "failover",
             startedAt := 0, endedAt := some 1800 }]).coverage ≤ 3/2
    ∧ (lineNumbers 12 (1/2) (3/2)
          { id := 10, serviceID := 1, customerID := 7, windowStart := 0,
            windowEnd := 3600, primaryBytes := 1073741824, backupBytes := 1073741824 }
          [{ id := 5, serviceID := 1, kind := "failover",
             startedAt := 0, endedAt := some 1800 }]).discount
        ≤ (lineNumbers 12 (1/2) (3/2)
          { id := 10, serviceID := 1, customerID := 7, windowStart := 0,
            windowEnd := 3600, primaryBytes := 1073741824, backupBytes := 1073741824 }
          [{ id := 5, serviceID := 1, kind := "failover",
             startedAt := 0, endedAt := some 1800 }]).lineSubtotal :=
  coverage_clamping 12 (1/2) (3/2)
    { id := 10, serviceID := 1, customerID := 7, windowStart := 0,
      windowEnd := 3600, primaryBytes := 1073741824, backupBytes := 1073741824 }
    [{ id := 5, serviceID := 1, kind := "failover",
       startedAt := 0, endedAt := some 1800 }]
    (by norm_num)

/-- C6: on the S6 scenario the billing run yields `line_subtotal = 24`,
`coverage = 0.75`, `discount = 5`, `line_total = 19` and sets the snapshot's
`invoice_id` to the inserted invoice. -/
theorem billing_scenario_s6 :
    runOnce billingScenarioDB (fun _ => false) 4000 86400 12 (1/2)
      = .ok { services := [{ id := 1, customerID := 7 }],
              snapshots := [{ id := 10, serviceID := 1, windowStart := 0,
                              windowEnd := 3600, primaryBytes := 1073741824,
                              backupBytes := 1073741824, invoiceID := some 1 }],
              events := [{ id := 5, serviceID := 1, kind := "failover",
                           startedAt := 0, endedAt := some 1800 }],
              policies := [(1, 3/2)],
              invoices := [{ id := 1, customerID := 7, periodStart := 0,
                             periodEnd := 3600, subtotalCents := 24,
                             discountCents := 5, totalCents := 19 }],
              lineItems := [{ invoiceID := 1, serviceID := 1, windowStart := 0,
                              windowEnd := 3600, primaryBytes := 1073741824,
                              backupBytes := 1073741824, coverageFactor := 3/4,
                              amountCents := 24, discountCents := 5 }],
              nextInvoiceID := 2 } := by
  norm_num [runOnce, billOp, lockUnbilledUsageSnapshots, sortBy, insertSorted,
    processSnapshots, getStormEventsForWindow, getMaxCoverageFactorForService,
    lineNumbers, coverageRatio, clipStorm, mergeStep, chargeForBytes, roundQ,
    upsertBuilder, newBuild, updBuild, mkItem, emitInvoices, insertItems,
    markSnaps, billingScenarioDB, clipStart, clipEnd, coveredSeconds,
    coverageOf, lineSubtotalOf, discountOf, List.filterMap,
    List.find?, List.isEmpty, List.foldr, List.foldl, List.filter, List.map]

theorem buildersIDs_mem {x : Int} :
    ∀ {bs : List InvoiceBuild}, x ∈ buildersIDs bs ↔ ∃ b ∈ bs, x ∈ b.snapshotIDs := by
  intro bs
  induction bs with
  | nil => simp [buildersIDs]
  | cons b rest ih =>
    simp only [buildersIDs, List.mem_append, ih, List.mem_cons]
    constructor
    · rintro (h1 | ⟨b', hb', hx⟩)
      · exact ⟨b, Or.inl rfl, h1⟩
      · exact ⟨b', Or.inr hb', hx⟩
    · rintro ⟨b', h1 | h2, hx⟩
      · subst h1; exact Or.inl hx
      · exact Or.inr ⟨b', h2, hx⟩

theorem upsertBuilder_mono (builders : List InvoiceBuild) (snap : SnapRow)
    (ln : LineNumbers) :
    ∀ x ∈ buildersIDs builders, x ∈ buildersIDs (upsertBuilder builders snap ln) := by
  induction builders with
  | nil =>
    intro x hx
    simp [buildersIDs] at hx
  | cons b rest ih =>
    intro x hx
    rw [buildersIDs, List.mem_append] at hx
    simp only [upsertBuilder]
    split
    · rw [buildersIDs, List.mem_append]
      rcases hx with h1 | h2
      · exact Or.inl (by rw [updBuild]; exact List.mem_append_left _ h1)
      · exact Or.inr h2
    · rw [buildersIDs, List.mem_append]
      rcases hx with h1 | h2
      · exact Or.inl h1
      · exact Or.inr (ih x h2)

theorem upsertBuilder_snap_mem (builders : List InvoiceBuild) (snap : SnapRow)
    (ln : LineNumbers) :
    snap.id ∈ buildersIDs (upsertBuilder builders snap ln) := by
  induction builders with
  | nil =>
    show snap.id ∈ buildersIDs [updBuild (newBuild snap) snap ln]
    rw [buildersIDs, List.mem_append]
    exact Or.inl (by rw [updBuild]; exact List.mem_append_right _ (by simp))
  | cons b rest ih =>
    simp only [upsertBuilder]
    split
    · rw [buildersIDs, List.mem_append]
      exact Or.inl (by rw [updBuild]; exact List.mem_append_right _ (by simp))
    · rw [buildersIDs, List.mem_append]
      exact Or.inr ih

theorem processSnapshots_ids (db : BillingDB) (inject : Nat → Bool) (rate : Int)
    (dr : ℚ) :
    ∀ (rows : List SnapRow) (c : Nat) (cache : List (Int × ℚ))
      (builders : List InvoiceBuild) out,
      processSnapshots db inject rate dr rows (c, cache, builders) = .ok out →
      ∀ x, (x ∈ buildersIDs builders ∨ ∃ snap ∈ rows, snap.id = x) →
        x ∈ buildersIDs out.2.2 := by
  intro rows
  induction rows with
  | nil =>
    intro c cache builders out h x hx
    unfold processSnapshots at h
    cases h
    rcases hx with h1 | ⟨snap, hmem, _⟩
    · exact h1
    · simp at hmem
  | cons snap rest ih =>
    intro c cache builders out h x hx
    unfold processSnapshots at h
    cases hb : billOp inject c with
    | error e => rw [hb] at h; exact absurd h (by simp)
    | ok c1 =>
      rw [hb] at h
      simp only at h
      have hnext : ∀ (c2 : Nat) (cache2 : List (Int × ℚ)) (maxCov : ℚ),
          processSnapshots db inject rate dr rest
            (c2, cache2, upsertBuilder builders snap
              (lineNumbers rate dr maxCov snap
                (getStormEventsForWindow db snap.serviceID snap.windowStart snap.windowEnd)))
            = .ok out →
          x ∈ buildersIDs out.2.2 := by
        intro c2 cache2 maxCov hrec
        apply ih _ _ _ _ hrec
        rcases hx with h1 | ⟨snap', hmem', hid'⟩
        · exact Or.inl (upsertBuilder_mono builders snap _ x h1)
        · rcases List.mem_cons.mp hmem' with he | hr
          · subst he
            subst hid'
            exact Or.inl (upsertBuilder_snap_mem builders snap' _)
          · exact Or.inr ⟨snap', hr, hid'⟩
      cases hcache : cache.find? (fun p => p.1 == snap.serviceID) with
      | some p =>
        rw [hcache] at h
        simp only at h
        exact hnext c1 cache p.2 h
      | none =>
        rw [hcache] at h
        simp only at h
        cases hb2 : billOp inject c1 with
        | error e => rw [hb2] at h; exact absurd h (by simp)
        | ok c2 =>
          rw [hb2] at h
          simp only at h
          exact hnext c2 _ _ h

theorem markSnaps_ok (inject : Nat → Bool) (invID : Int) :
    ∀ (sids : List Int) (c : Nat) (snaps : List UsageSnapshot) out,
      markSnaps inject invID sids (c, snaps) = .ok out →
      out.2 = snaps.map
        (fun us => if us.id ∈ sids then { us with invoiceID := some invID } else us) := by
  intro sids
  induction sids with
  | nil =>
    intro c snaps out h
    unfold markSnaps at h
    cases h
    simp
  | cons sid rest ih =>
    intro c snaps out h
    unfold markSnaps at h
    cases hb : billOp inject c with
    | error e => rw [hb] at h; exact absurd h (by simp)
    | ok c1 =>
      rw [hb] at h
      simp only at h
      have := ih _ _ _ h
      rw [this, List.map_map]
      apply List.map_congr_left
      intro us _
      by_cases h1 : us.id = sid
      · by_cases h2 : us.id ∈ rest <;>
          simp [Function.comp, h1, h2]
      · by_cases h2 : us.id ∈ rest <;>
          simp [Function.comp, h1, h2]

theorem emitInvoices_marks (inject : Nat → Bool) (startNext : Int) :
    ∀ (builders : List InvoiceBuild) (c : Nat) (db : BillingDB) out,
      emitInvoices inject builders (c, db) = .ok out →
      startNext ≤ db.nextInvoiceID →
      (∀ sid, MarkedFrom startNext db sid → MarkedFrom startNext out.2 sid)
      ∧ (∀ b ∈ builders, ∀ sid ∈ b.snapshotIDs, MarkedFrom startNext out.2 sid) := by
  intro builders
  induction builders with
  | nil =>
    intro c db out h hle
    unfold emitInvoices at h
    cases h
    exact ⟨fun _ hm => hm, fun b hb => by simp at hb⟩
  | cons bld rest ih =>
    intro c db out h hle
    unfold emitInvoices at h
    cases hb : billOp inject c with
    | error e => rw [hb] at h; exact absurd h (by simp)
    | ok c1 =>
      rw [hb] at h
      simp only at h
      cases hins : insertItems inject db.nextInvoiceID
          (sortBy (fun a b => a.windowStart ≤ b.windowStart) bld.items) (c1, []) with
      | error e => rw [hins] at h; exact absurd h (by simp)
      | ok citems =>
        rw [hins] at h
        simp only at h
        cases hmark : markSnaps inject db.nextInvoiceID bld.snapshotIDs
            (citems.1, db.snapshots) with
        | error e => rw [hmark] at h; exact absurd h (by simp)
        | ok csnaps =>
          rw [hmark] at h
          simp only at h
          have hsnaps := markSnaps_ok inject db.nextInvoiceID _ _ _ _ hmark
          set db2 : BillingDB :=
            { db with snapshots := csnaps.2,
                      invoices := db.invoices ++
                        [{ id := db.nextInvoiceID, customerID := bld.customerID,
                           periodStart := bld.periodStart, periodEnd := bld.periodEnd,
                           subtotalCents := bld.subtotal, discountCents := bld.discount,
                           totalCents := bld.total }],
                      lineItems := db.lineItems ++ citems.2,
                      nextInvoiceID := db.nextInvoiceID + 1 } with hdb2
          have hpres : ∀ sid, MarkedFrom startNext db sid → MarkedFrom startNext db2 sid := by
            intro sid hm us hus hid
            rw [hdb2] at hus ⊢
            simp only at hus ⊢
            rw [hsnaps] at hus
            obtain ⟨us0, hus0, hmap⟩ := List.mem_map.mp hus
            by_cases hin : us0.id ∈ bld.snapshotIDs
            · rw [if_pos hin] at hmap
              subst hmap
              refine ⟨{ id := db.nextInvoiceID, customerID := bld.customerID,
                        periodStart := bld.periodStart, periodEnd := bld.periodEnd,
                        subtotalCents := bld.subtotal, discountCents := bld.discount,
                        totalCents := bld.total }, ?_, hle, rfl⟩
              exact List.mem_append_right _ (by simp)
            · rw [if_neg hin] at hmap
              subst hmap
              obtain ⟨inv, hinv, hle', hsome⟩ := hm us0 hus0 hid
              exact ⟨inv, List.mem_append_left _ hinv, hle', hsome⟩
          have hnew : ∀ sid ∈ bld.snapshotIDs, MarkedFrom startNext db2 sid := by
            intro sid hsid us hus hid
            rw [hdb2] at hus ⊢
            simp only at hus ⊢
            rw [hsnaps] at hus
            obtain ⟨us0, hus0, hmap⟩ := List.mem_map.mp hus
            by_cases hin : us0.id ∈ bld.snapshotIDs
            · rw [if_pos hin] at hmap
              subst hmap
              refine ⟨{ id := db.nextInvoiceID, customerID := bld.customerID,
                        periodStart := bld.periodStart, periodEnd := bld.periodEnd,
                        subtotalCents := bld.subtotal, discountCents := bld.discount,
                        totalCents := bld.total }, ?_, hle, rfl⟩
              exact List.mem_append_right _ (by simp)
            · rw [if_neg hin] at hmap
              subst hmap
              rw [show us0.id = sid from hid] at hin
              exact absurd hsid hin
          have hle2 : startNext ≤ db2.nextInvoiceID := by
            rw [hdb2]
            simp only
            omega
          have ihres := ih csnaps.1 db2 out h hle2
          refine ⟨fun sid hm => ihres.1 sid (hpres sid hm), ?_⟩
          intro b hbmem sid hsid
          rcases List.mem_cons.mp hbmem with hbe | hbr
          · subst hbe
            exact ihres.1 sid (hnew sid hsid)
          · exact ihres.2 b hbr sid hsid

theorem lock_row_source {db : BillingDB} {ws we : Time} {row : SnapRow}
    (h : row ∈ lockUnbilledUsageSnapshots db ws we) :
    ∃ us ∈ db.snapshots, us.invoiceID = none ∧ us.id = row.id := by
  unfold lockUnbilledUsageSnapshots at h
  rw [sortBy_mem] at h
  obtain ⟨us, hus, hmap⟩ := List.mem_filterMap.mp h
  refine ⟨us, hus, ?_⟩
  cases hfind : db.services.find? (fun s => s.id == us.serviceID) with
  | none => rw [hfind] at hmap; exact absurd hmap (by simp)
  | some s =>
    rw [hfind] at hmap
    simp only at hmap
    split at hmap
    · rename_i hcond
      cases hmap
      exact ⟨hcond.1, rfl⟩
    · exact absurd hmap (by simp)

theorem marked_not_locked {startNext : Int} {db' : BillingDB} {sid : Int}
    (h : MarkedFrom startNext db' sid) :
    ∀ ws we, sid ∉ (lockUnbilledUsageSnapshots db' ws we).map (fun r => r.id) := by
  intro ws we hmem
  obtain ⟨row, hrow, hid⟩ := List.mem_map.mp hmem
  obtain ⟨us, hus, hnone, huid⟩ := lock_row_source hrow
  obtain ⟨inv, _, _, hsome⟩ := h us hus (by rw [huid, hid])
  rw [hnone] at hsome
  exact absurd hsome (by simp)

/-- C1: on a committed run every locked snapshot's `invoice_id` is set to an
invoice inserted in that run, so it never again satisfies the
`invoice_id IS NULL` filter of `LockUnbilledUsageSnapshots`; and a run that
errors before commit rolls back, persisting nothing. -/
theorem billing_exactly_once (db : BillingDB) (inject : Nat → Bool)
    (now period : Time) (rate : Int) (dr : ℚ) :
    (∀ dbOut, runOnce db inject now period rate dr = .ok dbOut →
      ∀ row ∈ lockUnbilledUsageSnapshots db (now - period) now,
        snapshotInvoiced db dbOut row.id
        ∧ ∀ ws we, row.id ∉ (lockUnbilledUsageSnapshots dbOut ws we).map (fun r => r.id))
    ∧ (∀ e, runOnce db inject now period rate dr = .error e →
        runOnceCommitted db inject now period rate dr = db) := by
  constructor
  · intro dbOut h row hrow
    unfold runOnce at h
    cases hb1 : billOp inject 0 with
    | error e => rw [hb1] at h; exact absurd h (by simp)
    | ok c1 =>
      rw [hb1] at h
      simp only at h
      cases hb2 : billOp inject c1 with
      | error e => rw [hb2] at h; exact absurd h (by simp)
      | ok c2 =>
        rw [hb2] at h
        simp only at h
        by_cases hemp : (lockUnbilledUsageSnapshots db (now - period) now).isEmpty
        · rw [List.isEmpty_iff] at hemp
          rw [hemp] at hrow
          simp at hrow
        · rw [if_neg (by simpa using hemp)] at h
          cases hproc : processSnapshots db inject rate dr
              (lockUnbilledUsageSnapshots db (now - period) now) (c2, [], []) with
          | error e => rw [hproc] at h; exact absurd h (by simp)
          | ok st =>
            rw [hproc] at h
            simp only at h
            cases hemit : emitInvoices inject st.2.2 (st.1, db) with
            | error e => rw [hemit] at h; exact absurd h (by simp)
            | ok st2 =>
              rw [hemit] at h
              simp only at h
              cases hb3 : billOp inject st2.1 with
              | error e => rw [hb3] at h; exact absurd h (by simp)
              | ok c4 =>
                rw [hb3] at h
                simp only at h
                cases h
                have hid : row.id ∈ buildersIDs st.2.2 :=
                  processSnapshots_ids db inject rate dr _ _ _ _ _ hproc row.id
                    (Or.inr ⟨row, hrow, rfl⟩)
                obtain ⟨b, hbmem, hsid⟩ := buildersIDs_mem.mp hid
                have hmark := (emitInvoices_marks inject db.nextInvoiceID _ _ _ _
                    hemit le_rfl).2 b hbmem row.id hsid
                exact ⟨hmark, marked_not_locked hmark⟩
  · intro e h
    unfold runOnceCommitted
    rw [h]

/-- Closed witness for C1 at the S6 scenario: the locked snapshot (id 10) is
invoiced and excluded from every later lock query. -/
theorem billing_exactly_once_witness :
    ∀ row ∈ lockUnbilledUsageSnapshots billingScenarioDB (4000 - 86400) 4000,
      snapshotInvoiced billingScenarioDB
        { services := [{ id := 1, customerID := 7 }],
          snapshots := [{ id := 10, serviceID := 1, windowStart := 0,
                          windowEnd := 3600, primaryBytes := 1073741824,
                          backupBytes := 1073741824, invoiceID := some 1 }],
          events := [{ id := 5, serviceID := 1, kind := "failover",
                       startedAt := 0, endedAt := some 1800 }],
          policies := [(1, 3/2)],
          invoices := [{ id := 1, customerID := 7, periodStart := 0,
                         periodEnd := 3600, subtotalCents := 24,
                         discountCents := 5, totalCents := 19 }],
          lineItems := [{ invoiceID := 1, serviceID := 1, windowStart := 0,
                          windowEnd := 3600, primaryBytes := 1073741824,
                          backupBytes := 1073741824, coverageFactor := 3/4,
                          amountCents := 24, discountCents := 5 }],
          nextInvoiceID := 2 } row.id
      ∧ ∀ ws we, row.id ∉
          (lockUnbilledUsageSnapshots
            { services := [{ id := 1, customerID := 7 }],
              snapshots := [{ id := 10, serviceID := 1, windowStart := 0,
                              windowEnd := 3600, primaryBytes := 1073741824,
                              backupBytes := 1073741824, invoiceID := some 1 }],
              events := [{ id := 5, serviceID := 1, kind := "failover",
                           startedAt := 0, endedAt := some 1800 }],
              policies := [(1, 3/2)],
              invoices := [{ id := 1, customerID := 7, periodStart := 0,
                             periodEnd := 3600, subtotalCents := 24,
                             discountCents := 5, totalCents := 19 }],
              lineItems := [{ invoiceID := 1, serviceID := 1, windowStart := 0,
                              windowEnd := 3600, primaryBytes := 1073741824,
                              backupBytes := 1073741824, coverageFactor := 3/4,
                              amountCents := 24, discountCents := 5 }],
              nextInvoiceID := 2 } ws we).map (fun r => r.id) :=
  (billing_exactly_once billingScenarioDB (fun _ => false) 4000 86400 12 (1/2)).1
    _ (by
      norm_num [runOnce, billOp, lockUnbilledUsageSnapshots, sortBy, insertSorted,
        processSnapshots, getStormEventsForWindow, getMaxCoverageFactorForService,
        lineNumbers, coverageRatio, clipStorm, mergeStep, chargeForBytes, roundQ,
        upsertBuilder, newBuild, updBuild, mkItem, emitInvoices, insertItems,
        markSnaps, billingScenarioDB, clipStart, clipEnd, coveredSeconds,
        coverageOf, lineSubtotalOf, discountOf, List.filterMap,
        List.find?, List.isEmpty, List.foldr, List.foldl, List.filter, List.map])

theorem lookupAgg_addUsage_same (key : Int × Time) (u : UsageRow) :
    ∀ aggs, lookupAgg (addUsage aggs key u) key
      = some (match lookupAgg aggs key with
        | none => { serviceID := key.1, windowStart := key.2, windowEnd := u.windowEnd,
                    primaryBytes := u.bytes, backupBytes := 0 }
        | some p => { p with serviceID := key.1, windowStart := key.2,
                             windowEnd := u.windowEnd,
                             primaryBytes := p.primaryBytes + u.bytes }) := by
  intro aggs
  induction aggs with
  | nil => simp [addUsage, lookupAgg]
  | cons kp rest ih =>
    obtain ⟨k', p⟩ := kp
    by_cases hk : k' = key
    · subst hk
      simp [addUsage, lookupAgg, List.find?]
    · rw [show addUsage ((k', p) :: rest) key u = (k', p) :: addUsage rest key u by
        simp [addUsage, hk]]
      unfold lookupAgg at ih ⊢
      rw [List.find?_cons_of_neg _ (by simp [hk]), List.find?_cons_of_neg _ (by simp [hk])]
      exact ih

theorem lookupAgg_addUsage_other {k key : Int × Time} (hne : k ≠ key) (u : UsageRow) :
    ∀ aggs, lookupAgg (addUsage aggs key u) k = lookupAgg aggs k := by
  intro aggs
  induction aggs with
  | nil => simp [addUsage, lookupAgg, List.find?_cons_of_neg, hne, Ne.symm hne]
  | cons kp rest ih =>
    obtain ⟨k', p⟩ := kp
    by_cases hk : k' = key
    · subst hk
      rw [show addUsage ((k', p) :: rest) k' u
          = (k', { p with serviceID := k'.1, windowStart := k'.2, windowEnd := u.windowEnd,
                          primaryBytes := p.primaryBytes + u.bytes }) :: rest by
        simp [addUsage]]
      unfold lookupAgg
      rw [List.find?_cons_of_neg _ (by simp [Ne.symm hne]),
        List.find?_cons_of_neg _ (by simp [Ne.symm hne])]
    · rw [show addUsage ((k', p) :: rest) key u = (k', p) :: addUsage rest key u by
        simp [addUsage, hk]]
      by_cases hkk : k' = k
      · subst hkk
        unfold lookupAgg
        rw [List.find?_cons_of_pos _ (by simp), List.find?_cons_of_pos _ (by simp)]
      · unfold lookupAgg at ih ⊢
        rw [List.find?_cons_of_neg _ (by simp [hkk]), List.find?_cons_of_neg _ (by simp [hkk])]
        exact ih

theorem aggregateUsage_lookup (h2s : List (String × Int)) (window : Time)
    (svc : Int) (ws : Time) (usages : List UsageRow) :
    lookupAgg (aggregateUsage h2s window usages) (svc, ws)
      = (if (usages.filter (specEligible h2s window svc ws)) = [] then none
         else some { serviceID := svc, windowStart := ws, windowEnd := ws + window,
                     primaryBytes :=
                       (((usages.filter (specEligible h2s window svc ws)).map
                          (fun u => u.bytes)).sum),
                     backupBytes := 0 }) := by
  induction usages using List.reverseRecOn with
  | nil => simp [aggregateUsage, lookupAgg]
  | append_singleton us u ih =>
    have hfold : aggregateUsage h2s window (us ++ [u])
        = (match lookupAssoc h2s u.host with
           | none => aggregateUsage h2s window us
           | some svcID =>
             if timeTruncate u.windowStart window ≠ u.windowStart
                 ∨ u.windowEnd ≠ u.windowStart + window then aggregateUsage h2s window us
             else addUsage (aggregateUsage h2s window us) (svcID, u.windowStart) u) := by
      unfold aggregateUsage
      rw [List.foldl_append, List.foldl_cons, List.foldl_nil]
    rw [hfold, List.filter_append]
    split
    · rename_i hl
      have he : specEligible h2s window svc ws u = false := by
        simp [specEligible, hl]
      rw [show List.filter (specEligible h2s window svc ws) [u] = [] by
        simp [List.filter, he]]
      simpa using ih
    · rename_i svcID hl
      by_cases halign : timeTruncate u.windowStart window ≠ u.windowStart
          ∨ u.windowEnd ≠ u.windowStart + window
      · rw [if_pos halign]
        have he : specEligible h2s window svc ws u = false := by
          simp only [specEligible, hl]
          rcases halign with h1 | h2
          · simp [h1]
          · simp [h2]
        rw [show List.filter (specEligible h2s window svc ws) [u] = [] by
          simp [List.filter, he]]
        simpa using ih
      · rw [if_neg halign]
        push_neg at halign
        obtain ⟨ha1, ha2⟩ := halign
        by_cases hkey : (svcID, u.windowStart) = ((svc, ws) : Int × Time)
        · rw [hkey, lookupAgg_addUsage_same, ih]
          have hk1 : svcID = svc := congrArg Prod.fst hkey
          have hk2 : u.windowStart = ws := congrArg Prod.snd hkey
          have hwe : u.windowEnd = ws + window := by rw [ha2, hk2]
          have he : specEligible h2s window svc ws u = true := by
            have ha1' : timeTruncate ws window = ws := by rw [← hk2]; exact ha1
            simp [specEligible, hl, hk1, hk2, ha1, ha2, ha1']
          rw [show List.filter (specEligible h2s window svc ws) [u] = [u] by
            simp [List.filter, he]]
          by_cases hemp : us.filter (specEligible h2s window svc ws) = []
          · rw [if_pos hemp, hemp]
            simp only [List.nil_append]
            rw [if_neg (by simp)]
            simp [hwe, hk2]
          · rw [if_neg hemp, if_neg (by simp [hemp])]
            simp only [List.map_append, List.sum_append, List.map_cons, List.map_nil,
              List.sum_cons, List.sum_nil, add_zero]
            simp [hwe]
        · have hne : ((svc, ws) : Int × Time) ≠ (svcID, u.windowStart) := fun h => hkey h.symm
          rw [lookupAgg_addUsage_other hne u]
          have he : specEligible h2s window svc ws u = false := by
            simp only [specEligible, hl, ha1, ha2]
            by_cases h1 : svcID = svc
            · have h2 : u.windowStart ≠ ws := fun h => hkey (by rw [h1, h])
              simp [h2]
            · simp [h1]
          rw [show List.filter (specEligible h2s window svc ws) [u] = [] by
            simp [List.filter, he]]
          simpa using ih

theorem upsert_preserves (snaps0 : List UsageSnapshot) (snaps : List UsageSnapshot)
    (nextID : Int) (p : UpsertParams)
    (hinv : ∀ us' ∈ snaps, preservesInvoice snaps0 us') :
    ∀ us' ∈ (upsertUsageSnapshot snaps nextID p).1, preservesInvoice snaps0 us' := by
  intro us' hmem
  unfold upsertUsageSnapshot at hmem
  split at hmem
  · obtain ⟨us1, hus1, hmap⟩ := List.mem_map.mp hmem
    by_cases hc : us1.serviceID = p.serviceID ∧ us1.windowStart = p.windowStart
        ∧ us1.windowEnd = p.windowEnd
    · rw [if_pos hc] at hmap
      subst hmap
      rcases hinv us1 hus1 with ⟨us, hus, h1, h2, h3, h4⟩ | h5
      · exact Or.inl ⟨us, hus, h1, h2, h3, h4⟩
      · exact Or.inr h5
    · rw [if_neg hc] at hmap
      subst hmap
      exact hinv us1 hus1
  · rcases List.mem_append.mp hmem with h1 | h2
    · exact hinv us' h1
    · simp only [List.mem_singleton] at h2
      subst h2
      exact Or.inr rfl

theorem usageFold_preserves (snaps0 : List UsageSnapshot) (window : Time) :
    ∀ (aggs : List ((Int × Time) × UpsertParams)) (st : List UsageSnapshot × Int),
      (∀ us' ∈ st.1, preservesInvoice snaps0 us') →
      ∀ us' ∈ (aggs.foldl
          (fun st kp =>
            upsertUsageSnapshot st.1 st.2
              (if kp.2.windowEnd = 0 then { kp.2 with windowEnd := kp.2.windowStart + window }
               else kp.2))
          st).1, preservesInvoice snaps0 us' := by
  intro aggs
  induction aggs with
  | nil => intro st hst; exact hst
  | cons kp rest ih =>
    intro st hst
    rw [List.foldl_cons]
    exact ih _ (upsert_preserves snaps0 st.1 st.2 _ hst)

/-- C9: the ingestor aligns `now` down to the usage window and asks the provider
for `[aligned_now − lookback, aligned_now)`; a row survives exactly when its
host is mapped and its window boundaries are aligned, surviving rows' bytes are
summed per (service_id, window_start), and the upserts never set `invoice_id`. -/
theorem usage_ingestor_run (activeServiceIDs : List Int)
    (domains : List (Int × String)) (snaps : List UsageSnapshot) (nextID : Int)
    (provider : Time → Time → List UsageRow) (now window lookback : Time)
    (hw : 0 < window) :
    (timeTruncate now window % window = 0
      ∧ timeTruncate now window ≤ now
      ∧ now < timeTruncate now window + window)
    ∧ (∀ svc ws,
        lookupAgg (aggregateUsage (hostToService activeServiceIDs domains) window
            (provider (timeTruncate now window - lookback) (timeTruncate now window)))
          (svc, ws)
        = (if ((provider (timeTruncate now window - lookback) (timeTruncate now window)).filter
              (specEligible (hostToService activeServiceIDs domains) window svc ws)) = []
           then none
           else some { serviceID := svc, windowStart := ws, windowEnd := ws + window,
                       primaryBytes :=
                         ((((provider (timeTruncate now window - lookback)
                              (timeTruncate now window)).filter
                            (specEligible (hostToService activeServiceIDs domains) window svc ws)).map
                            (fun u => u.bytes)).sum),
                       backupBytes := 0 }))
    ∧ (∀ out, usageRunOnce activeServiceIDs domains snaps nextID provider now window lookback
          = .ok out →
        ∀ us' ∈ out.1, preservesInvoice snaps us') := by
  refine ⟨?_, ?_, ?_⟩
  · unfold timeTruncate
    rw [if_neg (not_le.mpr hw)]
    have h1 := Int.ediv_add_emod now window
    have h2 := Int.emod_nonneg now (ne_of_gt hw)
    have h3 := Int.emod_lt_of_pos now hw
    refine ⟨Int.mul_emod_right window (now / window), ?_, ?_⟩
    · linarith [h1, h2]
    · linarith [h1, h3]
  · intro svc ws
    exact aggregateUsage_lookup (hostToService activeServiceIDs domains) window svc ws _
  · intro out h
    unfold usageRunOnce at h
    rw [if_neg (not_le.mpr hw)] at h
    have hbase : ∀ us' ∈ snaps, preservesInvoice snaps us' := by
      intro us' hmem
      exact Or.inl ⟨us', hmem, rfl, rfl, rfl, rfl⟩
    by_cases hs : activeServiceIDs.isEmpty
    · rw [if_pos hs] at h
      cases h
      exact hbase
    · rw [if_neg hs] at h
      by_cases hh : (hostToService activeServiceIDs domains).isEmpty
      · rw [if_pos hh] at h
        cases h
        exact hbase
      · rw [if_neg hh] at h
        cases h
        exact usageFold_preserves snaps window _ (snaps, nextID) hbase

/-- Closed witness for C9: a 1-hour window with an aligned clock and an empty
provider keeps the snapshot table free of `invoice_id` writes. -/
theorem usage_ingestor_run_witness :
    (timeTruncate 4000 3600 % 3600 = 0
      ∧ timeTruncate 4000 3600 ≤ 4000
      ∧ (4000 : Int) < timeTruncate 4000 3600 + 3600)
    ∧ (∀ out, usageRunOnce [1] [(1, "example.com")] [] 1 (fun _ _ => []) 4000 3600 21600
          = .ok out →
        ∀ us' ∈ out.1, preservesInvoice [] us') :=
  ⟨(usage_ingestor_run [1] [(1, "example.com")] [] 1 (fun _ _ => []) 4000 3600 21600
      (by decide)).1,
   (usage_ingestor_run [1] [(1, "example.com")] [] 1 (fun _ _ => []) 4000 3600 21600
      (by decide)).2.2⟩

end Tranche
